import Mathlib

/-!
# Verification of the ocean-backend block/link/search core

A shallow embedding, in Lean 4, of the core logic of
`app/services/ocean_service.py`:

* the block position sequencing (`create_block` / `move_block` /
  `delete_block` / `_get_next_block_position`),
* the block-type content converter (`_convert_block_content`),
* the link graph with its circular-reference check (`create_link`,
  `_has_circular_reference`),
* tag assignment bookkeeping (`assign_tag_to_block`, `remove_tag_from_block`),
* the search engine (`_search_metadata`, `_search_hybrid`,
  `_rank_and_dedupe`, `_calculate_freshness_boost`).

Modelling conventions:

* Entity ids (`block_id`, `page_id`, `organization_id`, `tag_id`, `link_id`)
  are opaque tokens in the Python service (uuid strings); they are modelled
  as `Nat`.
* Python text (`str`) is modelled as `List Char` (a sequence of code
  points), written `Str` below, with the handful of needed string
  operations (`lower`, `strip`, `split`, `join`, substring find,
  lexicographic comparison) implemented structurally so that they mirror
  the Python semantics and evaluate in the kernel.
* Python floats (similarity scores, boosts) are modelled as `ℚ`.
* The ZeroDB row store is modelled as in-memory lists of rows kept in
  insertion order; `query_rows` with an exact-match filter, a limit and
  offset 0 is `(rows.filter pred).take limit`; `update_rows` maps a patch
  over matching rows; `delete_rows` filters them out; `insert_rows`
  appends.  The backing store itself is modelled as available (the claims
  under verification are about the service logic, not store outages);
  the vector capability's failures are modelled explicitly because the
  search claims are about them.
* Python's stable `list.sort(key=…, reverse=True)` is modelled by a
  structurally recursive stable insertion sort (`sortByKeyDesc`,
  `sortByKeyAsc`) whose stability and sortedness are proved below.
* `datetime` handling in `_calculate_freshness_boost` is modelled by an
  abstract age assignment `ageDays : Str → Option Int` mapping a stored
  `created_at` string to the block's age in days at query time (`none`
  models an empty or unparseable timestamp).
-/

namespace Ocean

/-- Python `str` modelled as a list of code points. -/
abbrev Str := List Char

/-- Python `str.lower()` (ASCII case folding suffices for the texts at play). -/
def lowerStr (s : Str) : Str := s.map Char.toLower

/-- Python `str.strip()`: drop leading and trailing whitespace. -/
def stripStr (s : Str) : Str :=
  ((s.dropWhile Char.isWhitespace).reverse.dropWhile Char.isWhitespace).reverse

/-- Python `s.split(sep)` for a one-character separator `c`
(`"a\nb".split("\n") = ["a","b"]`, `"".split("\n") = [""]`). -/
def splitOnChar (c : Char) : Str → List Str
  | [] => [[]]
  | x :: xs =>
    let r := splitOnChar c xs
    if x = c then [] :: r
    else
      match r with
      | [] => [[x]]
      | h :: t => (x :: h) :: t

/-- Python `sep.join(xs)`. -/
def joinSep (sep : Str) : List Str → Str
  | [] => []
  | [x] => x
  | x :: y :: ys => x ++ sep ++ joinSep sep (y :: ys)

/-- Index of the first occurrence of `needle` as a contiguous substring of
`hay` (Python `hay.find(needle)`, with `none` for "not found";
`needle in hay` is `(findSubIdx needle hay).isSome`). -/
def findSubIdx (needle : Str) : Str → Option Nat
  | [] => if needle.isEmpty then some 0 else none
  | x :: t =>
    if needle.isPrefixOf (x :: t) then some 0
    else (findSubIdx needle t).map (· + 1)

/-- Python lexicographic string comparison `a <= b` (used by the date-range
filters on ISO-8601 timestamps). -/
def lexLe : Str → Str → Bool
  | [], _ => true
  | _ :: _, [] => false
  | x :: xs, y :: ys => if x = y then lexLe xs ys else decide (x < y)

/-! ## A stable insertion sort mirroring Python's `list.sort(key=…)`

Python's sort is stable; `reverse=True` keeps equal-keyed elements in
their original relative order while ordering keys descending.  The
insertion sorts below place each element (scanning the input left to
right) after every already-placed element whose key does not force a swap,
which yields exactly the stable order. -/

/-- Stable sort, descending by key `f`: Python `l.sort(key=f, reverse=True)`.
Insertion sort on a total preorder computes precisely the stable sorted
permutation, which is what Python's sort guarantees. -/
def sortByKeyDesc {α β : Type} [LinearOrder β] (f : α → β) (l : List α) : List α :=
  List.insertionSort (fun a b => f b ≤ f a) l

/-- Stable sort, ascending by key `f`: Python `l.sort(key=f)`. -/
def sortByKeyAsc {α β : Type} [LinearOrder β] (f : α → β) (l : List α) : List α :=
  List.insertionSort (fun a b => f a ≤ f b) l

/-! ## Data model -/

/-- A block's duck-typed content dict.  Each Python key that the service
ever reads is an optional field; `content.get(key, default)` is
`(field).getD default`. -/
structure Content where
  text : Option Str := none
  items : Option (List Str) := none
  url : Option Str := none
  displayText : Option Str := none
  checked : Option Bool := none
  linkedPageId : Option Nat := none
deriving Repr, DecidableEq

/-- A row of the `ocean_blocks` table (the fields the verified logic
reads: identity, tenancy, type, position, content, the `properties.tags`
list, and the `created_at` timestamp string). -/
structure Block where
  block_id : Nat
  page_id : Nat
  organization_id : Nat
  block_type : Str
  position : Nat
  content : Content
  tags : List Nat
  created_at : Str
deriving Repr, DecidableEq

/-- A row of the pages table (the fields link/block creation checks). -/
structure Page where
  page_id : Nat
  organization_id : Nat
deriving Repr, DecidableEq

/-- A row of the `ocean_block_links` table. -/
structure Link where
  link_id : Nat
  organization_id : Nat
  source_block_id : Nat
  target_block_id : Option Nat
  target_page_id : Option Nat
  link_type : Str
deriving Repr, DecidableEq

/-- A row of the tags table (usage counts are Python ints, hence `Int`). -/
structure Tag where
  tag_id : Nat
  organization_id : Nat
  name : Str
  usage_count : Int
deriving Repr, DecidableEq

/-- The durable state: the four ZeroDB collections, rows in insertion order. -/
structure St where
  pages : List Page
  blocks : List Block
  links : List Link
  tags : List Tag
deriving Repr, DecidableEq

/-! ## Block-type content conversion (`_convert_block_content`) -/

/-- The valid block types (`valid_types` in `create_block` /
`convert_block_type`). -/
def validTypes : List Str :=
  ["text".data, "heading".data, "list".data, "task".data, "link".data, "page_link".data]

/-- The text-extraction half of `_convert_block_content` (its §4.3
extraction table): old content and type to canonical text. -/
def conversionText (old_content : Content) (old_type : Str) : Str :=
  if old_type = "text".data ∨ old_type = "heading".data ∨ old_type = "task".data then
    old_content.text.getD []
  else if old_type = "list".data then
    joinSep "\n".data (old_content.items.getD [])
  else if old_type = "link".data then
    old_content.text.getD []
  else if old_type = "page_link".data then
    old_content.displayText.getD []
  else []

/-- The construction half of `_convert_block_content`: canonical text to
new content shape (`text.split("\n") if text else []` for lists, reset
`checked`, empty `url`, null `linkedPageId`). -/
def buildContent (text : Str) (new_type : Str) : Content :=
  if new_type = "text".data ∨ new_type = "heading".data then
    { text := some text }
  else if new_type = "list".data then
    { items := some (if text ≠ [] then splitOnChar '\n' text else []) }
  else if new_type = "task".data then
    { text := some text, checked := some false }
  else if new_type = "link".data then
    { text := some text, url := some "".data }
  else if new_type = "page_link".data then
    { displayText := some text, linkedPageId := none }
  else { text := some text }

/-- `_convert_block_content(old_content, old_type, new_type)`. -/
def _convert_block_content (old_content : Content) (old_type new_type : Str) : Content :=
  buildContent (conversionText old_content old_type) new_type

/-! ## Searchable-text extraction (`_extract_searchable_text`)

Note this is a *different* table from `conversionText`: list items are
joined with spaces (not newlines) and a link block contributes its URL
(`f"{text} {url}".strip()`). -/

/-- `_extract_searchable_text(block)` on a block's type and content. -/
def _extract_searchable_text (block_type : Str) (content : Content) : Str :=
  if block_type = "text".data ∨ block_type = "heading".data then
    content.text.getD []
  else if block_type = "list".data then
    joinSep " ".data (content.items.getD [])
  else if block_type = "task".data then
    content.text.getD []
  else if block_type = "link".data then
    stripStr (content.text.getD [] ++ " ".data ++ content.url.getD [])
  else if block_type = "page_link".data then
    content.displayText.getD []
  else []

/-- SPEC-SIDE definition (claim C6's words, not the source): the
searchable-text table the spec asserts `_search_metadata` uses — "the same
per-type extraction as §4.3", i.e. text/heading/task use the text field,
list items are joined with NEWLINE, a link block uses its text field with
the URL DROPPED, a page reference uses its display text.  Compare with
`_extract_searchable_text`, the table the code actually uses (space join
for lists; a link's URL is appended after a space). -/
def specSearchableText (block_type : Str) (content : Content) : Str :=
  if block_type = "text".data ∨ block_type = "heading".data ∨
      block_type = "task".data then
    content.text.getD []
  else if block_type = "list".data then
    joinSep "\n".data (content.items.getD [])
  else if block_type = "link".data then
    content.text.getD []
  else if block_type = "page_link".data then
    content.displayText.getD []
  else []

/-! ## Block operations -/

/-- `get_page(page_id, org_id)`: `query_rows` on the pages table with the
exact-match filter `{page_id, organization_id}` and limit 1. -/
def get_page (st : St) (page_id org_id : Nat) : Option Page :=
  (st.pages.filter
    (fun p => p.page_id == page_id && p.organization_id == org_id)).head?

/-- `get_block(block_id, org_id)`: `query_rows` on the blocks table with
filter `{block_id, organization_id}` and limit 1. -/
def get_block (st : St) (block_id org_id : Nat) : Option Block :=
  (st.blocks.filter
    (fun b => b.block_id == block_id && b.organization_id == org_id)).head?

/-- All rows of the blocks table matching `{page_id, organization_id}`
(the conceptual block set of a page; the service itself only ever sees
these through the limited query in `get_blocks_by_page`). -/
def pageBlocks (st : St) (page_id org_id : Nat) : List Block :=
  st.blocks.filter
    (fun b => b.page_id == page_id && b.organization_id == org_id)

/-- `get_blocks_by_page(page_id, org_id)` with no optional filters and no
pagination argument: `query_rows` with filter `{page_id, organization_id}`,
the *default* limit 100 and offset 0, then a client-side stable
`rows.sort(key=position)`. -/
def get_blocks_by_page (st : St) (page_id org_id : Nat) : List Block :=
  sortByKeyAsc Block.position ((pageBlocks st page_id org_id).take 100)

/-- `_get_next_block_position(page_id, org_id)`: the length of
`get_blocks_by_page`. -/
def _get_next_block_position (st : St) (page_id org_id : Nat) : Nat :=
  (get_blocks_by_page st page_id org_id).length

/-- The caller-supplied part of a `create_block` payload (`block_data`). -/
structure BlockData where
  block_type : Str
  content : Content
  position : Option Nat := none
  tags : List Nat := []
  created_at : Str := []
deriving Repr, DecidableEq

/-- `create_block(page_id, org_id, user_id, block_data)`: validates the
block type, verifies the page, fills in the position
(`_get_next_block_position` when none is supplied) and appends the new
row.  The generated uuid is the parameter `new_id`; embedding generation
is a best-effort side effect that does not alter the row logic and is not
modelled. -/
def create_block (st : St) (page_id org_id new_id : Nat) (bd : BlockData) :
    Except Str (Block × St) :=
  if ¬ bd.block_type ∈ validTypes then
    .error "block_type must be one of: text, heading, list, task, link, page_link".data
  else
    match get_page st page_id org_id with
    | none => .error "Page not found or does not belong to organization".data
    | some _ =>
      let position := bd.position.getD (_get_next_block_position st page_id org_id)
      let doc : Block :=
        { block_id := new_id, page_id := page_id, organization_id := org_id,
          block_type := bd.block_type, position := position,
          content := bd.content, tags := bd.tags, created_at := bd.created_at }
      .ok (doc, { st with blocks := st.blocks ++ [doc] })

/-- `delete_block(block_id, org_id)`: verify via `get_block`, then
`delete_rows` with filter `{block_id, organization_id}`.  No other block's
position is touched. -/
def delete_block (st : St) (block_id org_id : Nat) : Bool × St :=
  match get_block st block_id org_id with
  | none => (false, st)
  | some _ =>
    (true,
      { st with
        blocks := st.blocks.filter
          (fun b => ¬ (b.block_id == block_id && b.organization_id == org_id)) })

/-- One `update_rows` call of `move_block`: set the position of the rows
matching `{block_id, organization_id}`. -/
def updPos (org_id uid newPos : Nat) (b : Block) : Block :=
  if b.block_id == uid && b.organization_id == org_id then
    { b with position := newPos }
  else b

/-- The `updates_needed` list computed by `move_block` from the page's
(limited, sorted) block listing. -/
def moveUpdates (all_blocks : List Block) (block_id old_position new_position : Nat) :
    List (Nat × Nat) :=
  if new_position > old_position then
    (all_blocks.filter
      (fun b => old_position < b.position && b.position ≤ new_position &&
        b.block_id ≠ block_id)).map (fun b => (b.block_id, b.position - 1))
  else
    (all_blocks.filter
      (fun b => new_position ≤ b.position && b.position < old_position &&
        b.block_id ≠ block_id)).map (fun b => (b.block_id, b.position + 1))

/-- `move_block(block_id, new_position, org_id)`: fetch the block (else
`None` and no change), no-op when the position is unchanged, otherwise
shift the affected blocks one by one and finally write the moved block's
new position; returns the re-fetched block. -/
def move_block (st : St) (block_id new_position org_id : Nat) :
    Option Block × St :=
  match get_block st block_id org_id with
  | none => (none, st)
  | some existing =>
    if existing.position == new_position then (some existing, st)
    else
      let all_blocks := get_blocks_by_page st existing.page_id org_id
      let updates := moveUpdates all_blocks block_id existing.position new_position
      let st1 := updates.foldl
        (fun s u => { s with blocks := s.blocks.map (updPos org_id u.1 u.2) }) st
      let st2 := { st1 with blocks := st1.blocks.map (updPos org_id block_id new_position) }
      (get_block st2 block_id org_id, st2)

/-! ## Link operations (`create_link`, `_has_circular_reference`) -/

/-- `_get_block_by_id(block_id, org_id)` (the link-side block lookup;
same query as `get_block`). -/
def _get_block_by_id (st : St) (block_id org_id : Nat) : Option Block :=
  (st.blocks.filter
    (fun b => b.block_id == block_id && b.organization_id == org_id)).head?

/-- The link rows queried by one step of the circular-reference walk:
filter `{source_block_id := node, organization_id}` with limit 1000. -/
def linksFrom (st : St) (node org_id : Nat) : List Link :=
  (st.links.filter
    (fun l => l.source_block_id == node && l.organization_id == org_id)).take 1000

/-- One iteration of the link loop inside `_has_circular_reference`: skip
page links, report a direct hit on the source, and otherwise recurse
(`rec`) sharing the visited set.  A `true` short-circuits the rest of the
loop (Python returns immediately); `none` models an exhausted recursion
budget. -/
def circStep (source : Nat) (rec : Nat → List Nat → Option (Bool × List Nat)) :
    Option (Bool × List Nat) → Link → Option (Bool × List Nat)
  | none, _ => none
  | some (true, v), _ => some (true, v)
  | some (false, v), l =>
    match l.target_block_id with
    | none => some (false, v)
    | some linked =>
      if linked = source then some (true, v)
      else rec linked v

/-- `_has_circular_reference(source, target, org, visited)` with an
explicit recursion budget `fuel` (`none` = budget exhausted; the Python
recursion needs no budget because the visited set is drawn from a finite
store — `hasCircularFuel` below always suffices, as proved in the lemmas).
Mirrors the Python exactly: bail out on an already-visited target, mark
the target visited, then walk its outgoing links in store order. -/
def hasCircularAux (st : St) (source org_id : Nat) :
    Nat → Nat → List Nat → Option (Bool × List Nat)
  | 0, _, _ => none
  | fuel + 1, target, visited =>
    if target ∈ visited then some (false, visited)
    else
      (linksFrom st target org_id).foldl
        (circStep source (hasCircularAux st source org_id fuel))
        (some (false, target :: visited))

/-- The recursion budget handed to the walk: one more than the number of
link rows (every node the walk can newly visit beyond the initial target
is the block target of some link row). -/
def hasCircularFuel (st : St) : Nat := st.links.length + 2

/-- `_has_circular_reference(source_block_id, target_block_id, org_id)`
as called by `create_link` (fresh visited set). -/
def _has_circular_reference (st : St) (source_block_id target_block_id org_id : Nat) : Bool :=
  ((hasCircularAux st source_block_id org_id (hasCircularFuel st)
      target_block_id []).map (·.1)).getD false

/-- The message of the `ValueError` raised on a detected cycle, naming
both endpoint blocks. -/
def circularMsg (target_id source_block_id : Nat) : Str :=
  ("Circular reference detected: target block ".data ++ (toString target_id).data
    ++ " already links to source block ".data ++ (toString source_block_id).data)

/-- The valid link types. -/
def validLinkTypes : List Str := ["reference".data, "embed".data, "mention".data]

/-- `create_link(source_block_id, target_id, link_type, org_id,
is_page_link)`: validate the type, the source block and the target
(block or page), run the cycle check for block targets, then insert the
link row.  The generated uuid is `new_link_id`; a raise leaves the store
untouched. -/
def create_link (st : St) (source_block_id target_id : Nat) (link_type : Str)
    (org_id : Nat) (is_page_link : Bool) (new_link_id : Nat) :
    Except Str Link × St :=
  if ¬ link_type ∈ validLinkTypes then
    (.error "Invalid link_type. Must be one of: reference, embed, mention".data, st)
  else match _get_block_by_id st source_block_id org_id with
  | none =>
    (.error "Source block not found or does not belong to organization".data, st)
  | some _ =>
    if is_page_link then
      match get_page st target_id org_id with
      | none =>
        (.error "Target page not found or does not belong to organization".data, st)
      | some _ =>
        let doc : Link :=
          { link_id := new_link_id, organization_id := org_id,
            source_block_id := source_block_id, target_block_id := none,
            target_page_id := some target_id, link_type := link_type }
        (.ok doc, { st with links := st.links ++ [doc] })
    else
      match _get_block_by_id st target_id org_id with
      | none =>
        (.error "Target block not found or does not belong to organization".data, st)
      | some _ =>
        if _has_circular_reference st source_block_id target_id org_id then
          (.error (circularMsg target_id source_block_id), st)
        else
          let doc : Link :=
            { link_id := new_link_id, organization_id := org_id,
              source_block_id := source_block_id, target_block_id := some target_id,
              target_page_id := none, link_type := link_type }
          (.ok doc, { st with links := st.links ++ [doc] })

deriving instance DecidableEq for Except

/-- A block→block edge of the tenant's link graph (the edges the cycle
walk follows). -/
def IsEdge (st : St) (org_id a b : Nat) : Prop :=
  ∃ l ∈ st.links, l.organization_id = org_id ∧ l.source_block_id = a ∧
    l.target_block_id = some b

/-- Reachability along one or more block→block edges. -/
inductive Reaches (st : St) (org_id : Nat) : Nat → Nat → Prop
  | single {a b : Nat} : IsEdge st org_id a b → Reaches st org_id a b
  | step {a b c : Nat} : IsEdge st org_id a b → Reaches st org_id b c →
      Reaches st org_id a c

/-! ## Tag operations (`assign_tag_to_block`, `remove_tag_from_block`) -/

/-- `get_tags(org_id)` with no filters: `query_rows` on the tags table
with filter `{organization_id}` and limit 1000, then a client-side stable
`rows.sort(key=usage_count, reverse=True)`. -/
def get_tags (st : St) (org_id : Nat) : List Tag :=
  sortByKeyDesc Tag.usage_count
    ((st.tags.filter (fun t => t.organization_id == org_id)).take 1000)

/-- `next((t for t in existing_tags if t["tag_id"] == tag_id), None)`. -/
def findTag (st : St) (tag_id org_id : Nat) : Option Tag :=
  (get_tags st org_id).find? (fun t => t.tag_id == tag_id)

/-- The single-block lookup both tag operations perform (`query_rows` on
blocks with filter `{block_id, organization_id}`, limit 1). -/
def tagOpBlock (st : St) (block_id org_id : Nat) : Option Block :=
  (st.blocks.filter
    (fun b => b.block_id == block_id && b.organization_id == org_id)).head?

/-- The tags-table write both operations end with: set the usage count of
the rows matching `{tag_id, organization_id}`. -/
def setUsage (st : St) (tag_id org_id : Nat) (count : Int) : St :=
  { st with
    tags := st.tags.map (fun t =>
      if t.tag_id == tag_id && t.organization_id == org_id then
        { t with usage_count := count }
      else t) }

/-- `assign_tag_to_block(block_id, tag_id, org_id)`: raise when the tag or
the block is missing from the tenant; return `False` (no writes) when the
tag is already assigned; otherwise append the tag to the block's
`properties.tags`, write the block, and set the tag's usage count to the
previously fetched count plus one. -/
def assign_tag_to_block (st : St) (block_id tag_id org_id : Nat) :
    Except Str Bool × St :=
  match findTag st tag_id org_id with
  | none => (.error "Tag not found or does not belong to organization".data, st)
  | some existing_tag =>
    match tagOpBlock st block_id org_id with
    | none => (.error "Block not found".data, st)
    | some block =>
      if tag_id ∈ block.tags then (.ok false, st)
      else
        let newTags := block.tags ++ [tag_id]
        let st1 : St :=
          { st with
            blocks := st.blocks.map (fun b =>
              if b.block_id == block_id && b.organization_id == org_id then
                { b with tags := newTags }
              else b) }
        (.ok true, setUsage st1 tag_id org_id (existing_tag.usage_count + 1))

/-- `remove_tag_from_block(block_id, tag_id, org_id)`: raise when the tag
or the block is missing; return `False` (no writes) when the tag is not
assigned; otherwise remove the tag's first occurrence from the block's
list, write the block, and set the tag's usage count to
`max(0, fetched - 1)`. -/
def remove_tag_from_block (st : St) (block_id tag_id org_id : Nat) :
    Except Str Bool × St :=
  match findTag st tag_id org_id with
  | none => (.error "Tag not found or does not belong to organization".data, st)
  | some existing_tag =>
    match tagOpBlock st block_id org_id with
    | none => (.error "Block not found".data, st)
    | some block =>
      if ¬ tag_id ∈ block.tags then (.ok false, st)
      else
        let newTags := block.tags.erase tag_id
        let st1 : St :=
          { st with
            blocks := st.blocks.map (fun b =>
              if b.block_id == block_id && b.organization_id == org_id then
                { b with tags := newTags }
              else b) }
        (.ok true, setUsage st1 tag_id org_id (max 0 (existing_tag.usage_count - 1)))

/-! ## Search (`_search_metadata`, `_search_hybrid`, `_rank_and_dedupe`) -/

/-- The optional search filters (`filters` dict). -/
structure Filters where
  block_types : Option (List Str) := none
  page_id : Option Nat := none
  tags : Option (List Nat) := none
  date_range : Option (Option Str × Option Str) := none
deriving Repr, DecidableEq

/-- One entry of a search result list (`{"block", "score", "match_type"}`;
scores are Python floats, modelled as `ℚ`). -/
structure SearchHit where
  block : Block
  score : ℚ
  match_type : Str
deriving Repr, DecidableEq

/-- A hybrid result after `_rank_and_dedupe` added `final_score`. -/
structure RankedHit where
  block : Block
  score : ℚ
  match_type : Str
  final_score : ℚ
deriving Repr, DecidableEq

/-- `_filter_by_date_range(blocks, start, end)`: keep blocks whose
`created_at` string is `≥ start` and `≤ end` (lexicographic comparison of
ISO timestamps; a missing bound filters nothing). -/
def _filter_by_date_range (blocks : List Block) (start? end? : Option Str) :
    List Block :=
  let afterStart := match start? with
    | none => blocks
    | some s => blocks.filter (fun b => lexLe s b.created_at)
  match end? with
  | none => afterStart
  | some e => afterStart.filter (fun b => lexLe b.created_at e)

/-- The row-retrieval half of `_search_metadata`: query the tenant's
blocks (page pushdown when given, limit 1000), then apply the block-type,
tag and date-range filters locally. -/
def metaRows (st : St) (org_id : Nat) (filters : Filters) : List Block :=
  let rows := (st.blocks.filter (fun b =>
      b.organization_id == org_id &&
        (match filters.page_id with
         | none => true
         | some p => b.page_id == p))).take 1000
  let rows := match filters.block_types with
    | none => rows
    | some allowed => rows.filter (fun b => b.block_type ∈ allowed)
  let rows := match filters.tags with
    | none => rows
    | some required => rows.filter (fun b => b.tags.any (fun t => t ∈ required))
  match filters.date_range with
  | none => rows
  | some (s, e) => _filter_by_date_range rows s e

/-- The text-matching step of `_search_metadata`'s loop: keep a block iff
the lower-cased query occurs in its lower-cased searchable text, scored by
`max(0.5, 1 - position / max(len(text), 1))`. -/
def metaScore (query : Str) (b : Block) : Option SearchHit :=
  let searchable_text := lowerStr (_extract_searchable_text b.block_type b.content)
  match findSubIdx (lowerStr query) searchable_text with
  | none => none
  | some position =>
    some { block := b,
           score := max ((1 : ℚ)/2)
             (1 - (position : ℚ) / (max searchable_text.length 1 : ℚ)),
           match_type := "metadata".data }

/-- `_search_metadata(query, org_id, filters, limit)`: retrieve and filter
the tenant's rows, keep blocks whose lower-cased searchable text contains
the lower-cased query with their position-based scores, sort by score
descending (stable) and truncate to the limit. -/
def _search_metadata (st : St) (query : Str) (org_id : Nat)
    (filters : Filters) (limit : Nat) : List SearchHit :=
  (sortByKeyDesc SearchHit.score
    ((metaRows st org_id filters).filterMap (metaScore query))).take limit

/-- `_calculate_freshness_boost(created_at)` as a function of the block's
age in days at query time (`none` models an empty or unparseable
timestamp, both of which yield no boost). -/
def _calculate_freshness_boost : Option Int → ℚ
  | none => 0
  | some age_days =>
    if age_days < 7 then 1/20
    else if age_days < 30 then 3/100
    else if age_days < 90 then 1/100
    else 0

/-- The `final_score` computed inside `_rank_and_dedupe`'s loop:
`min(1.0, base + exact-term boost + freshness boost + heading boost)`. -/
def finalScoreOf (ageDays : Str → Option Int) (query : Str) (r : SearchHit) : ℚ :=
  let searchable_text := lowerStr (_extract_searchable_text r.block.block_type r.block.content)
  let query_boost : ℚ :=
    if (findSubIdx (lowerStr query) searchable_text).isSome then 1/10 else 0
  let freshness_boost := _calculate_freshness_boost (ageDays r.block.created_at)
  let type_boost : ℚ := if r.block.block_type = "heading".data then 3/100 else 0
  min 1 (r.score + query_boost + freshness_boost + type_boost)

/-- One iteration of `_rank_and_dedupe`'s loop: skip an already-seen
block id, otherwise record the id and append the scored survivor. -/
def dedupeStep (ageDays : Str → Option Int) (query : Str)
    (acc : List Nat × List RankedHit) (r : SearchHit) :
    List Nat × List RankedHit :=
  if r.block.block_id ∈ acc.1 then acc
  else
    (r.block.block_id :: acc.1,
      acc.2 ++ [{ block := r.block, score := r.score,
                  match_type := r.match_type,
                  final_score := finalScoreOf ageDays query r }])

/-- The dedupe loop of `_rank_and_dedupe`: walk the results in order,
skip blocks already seen, attach `final_score` to each survivor. -/
def dedupeScored (ageDays : Str → Option Int) (query : Str)
    (results : List SearchHit) : List RankedHit :=
  (results.foldl (dedupeStep ageDays query) ([], [])).2

/-- `_rank_and_dedupe(results, query)`: dedupe by block id (first
occurrence wins), then a stable `sort(key=final_score, reverse=True)`. -/
def _rank_and_dedupe (ageDays : Str → Option Int) (results : List SearchHit)
    (query : Str) : List RankedHit :=
  sortByKeyDesc RankedHit.final_score (dedupeScored ageDays query results)

/-- One hit returned by the vector capability's similarity search
(similarity score plus the stored metadata used to re-locate the block). -/
structure VectorHit where
  similarity : ℚ
  block_id : Option Nat
deriving Repr, DecidableEq

/-- The metadata filter pushed down to the vector search (tenant always;
page id if given; a single requested block type). -/
structure MetaFilter where
  organization_id : Nat
  page_id : Option Nat := none
  block_type : Option Str := none
deriving Repr, DecidableEq

/-- The remote vector capability as the search paths observe it.
`embedResponse` is the `/embeddings/generate` reply (`none` = HTTP
failure, `some es` = the `embeddings` array); `searchResponse` is the
`/embeddings/search` reply for a given filter, threshold and limit
(`none` = HTTP failure, `some hits` = the ranked `results`). -/
structure VectorEnv where
  embedResponse : Str → Option (List (List ℚ))
  searchResponse : MetaFilter → ℚ → Nat → Option (List VectorHit)

/-- `_generate_query_embedding(query)`: raises on an HTTP failure and on
an empty `embeddings` array, else returns the first embedding. -/
def _generate_query_embedding (env : VectorEnv) (query : Str) : Except Str (List ℚ) :=
  match env.embedResponse query with
  | none => .error "Failed to generate query embedding".data
  | some embeddings =>
    match embeddings.head? with
    | none => .error "No embeddings returned from API".data
    | some e => .ok e

/-- `_search_vectors(query_embedding, metadata_filter, threshold, limit)`:
an HTTP failure is non-critical and yields an empty result list. -/
def _search_vectors (env : VectorEnv) (metadata_filter : MetaFilter)
    (threshold : ℚ) (limit : Nat) : List VectorHit :=
  match env.searchResponse metadata_filter threshold limit with
  | none => []
  | some results => results

/-- `_enrich_search_results(vector_results, org_id)`: drop hits without a
`block_id` in their metadata or whose block no longer loads, and wrap the
rest with their similarity score. -/
def _enrich_search_results (st : St) (vector_results : List VectorHit)
    (org_id : Nat) : List SearchHit :=
  vector_results.filterMap (fun r =>
    match r.block_id with
    | none => none
    | some bid =>
      (get_block st bid org_id).map (fun b =>
        { block := b, score := r.similarity, match_type := "semantic".data }))

/-- `_apply_additional_filters(results, filters)`: the filters that could
not be pushed down — a multi-valued block-type set, tags, date range. -/
def _apply_additional_filters (results : List SearchHit) (filters : Filters) :
    List SearchHit :=
  let filtered := match filters.block_types with
    | some allowed =>
      if allowed.length > 1 then
        results.filter (fun r => r.block.block_type ∈ allowed)
      else results
    | none => results
  let filtered := match filters.tags with
    | none => filtered
    | some required =>
      filtered.filter (fun r => r.block.tags.any (fun t => t ∈ required))
  match filters.date_range with
  | none => filtered
  | some (s, e) =>
    let kept := _filter_by_date_range (filtered.map (·.block)) s e
    filtered.filter (fun r => (kept.map Block.block_id).contains r.block.block_id)

/-- The metadata filter `_search_hybrid` builds for the pushdown. -/
def hybridMetaFilter (org_id : Nat) (filters : Filters) : MetaFilter :=
  { organization_id := org_id,
    page_id := filters.page_id,
    block_type := match filters.block_types with
      | some [t] => some t
      | _ => none }

/-- `_search_hybrid(query, org_id, filters, limit, threshold)`: embed the
query (failures propagate), similarity-search with the pushed-down filter
and a `2 × limit` over-fetch, enrich, filter locally, rank/dedupe, and
truncate to `limit`. -/
def _search_hybrid (env : VectorEnv) (st : St) (ageDays : Str → Option Int)
    (query : Str) (org_id : Nat) (filters : Filters) (limit : Nat)
    (threshold : ℚ) : Except Str (List RankedHit) :=
  match _generate_query_embedding env query with
  | .error e => .error e
  | .ok _ =>
    let vector_results :=
      _search_vectors env (hybridMetaFilter org_id filters) threshold (limit * 2)
    let enriched := _enrich_search_results st vector_results org_id
    let filtered := _apply_additional_filters enriched filters
    let final_results := _rank_and_dedupe ageDays filtered query
    .ok (final_results.take limit)

/-- `_search_semantic(query, org_id, limit, threshold)`: embed the query
(failures propagate), similarity-search with a tenant-only filter, enrich,
and return in the vector service's order. -/
def _search_semantic (env : VectorEnv) (st : St) (query : Str)
    (org_id : Nat) (limit : Nat) (threshold : ℚ) :
    Except Str (List SearchHit) :=
  match _generate_query_embedding env query with
  | .error e => .error e
  | .ok _ =>
    let results := _search_vectors env { organization_id := org_id } threshold limit
    .ok (_enrich_search_results st results org_id)

/-! ## Operation sequences and invariants for the claims -/

/-- Global well-formedness of the store: block ids are unique (they are
generated uuids). -/
def wfIds (st : St) : Prop := (st.blocks.map Block.block_id).Nodup

/-- The page-position invariant of the spec: the positions of the blocks
of one page are duplicate-free and form exactly the set `{0, …, N-1}`
for `N` the page's block count. -/
def posOk (st : St) (page_id org_id : Nat) : Prop :=
  ((pageBlocks st page_id org_id).map Block.position).Nodup ∧
    ((pageBlocks st page_id org_id).map Block.position).toFinset =
      Finset.range (pageBlocks st page_id org_id).length

instance (st : St) (page_id org_id : Nat) : Decidable (posOk st page_id org_id) := by
  unfold posOk; infer_instance

instance (st : St) : Decidable (wfIds st) := by
  unfold wfIds; infer_instance

/-- A block operation of claim C1's sequences (`create_block` with no
explicit position, or `move_block`), targeting one page of one tenant. -/
inductive BlockOp : Type
  | create (new_id : Nat) (bd : BlockData)
  | move (block_id new_position : Nat)
deriving Repr, DecidableEq

/-- Apply one operation to the store (failed validations leave the store
unchanged, as the service raises before writing). -/
def applyBlockOp (page_id org_id : Nat) (st : St) : BlockOp → St
  | .create new_id bd =>
    match create_block st page_id org_id new_id bd with
    | .ok (_, st') => st'
    | .error _ => st
  | .move block_id new_position => (move_block st block_id new_position org_id).2

/-- Apply a sequence of operations left to right. -/
def applyBlockOps (page_id org_id : Nat) (st : St) (ops : List BlockOp) : St :=
  ops.foldl (applyBlockOp page_id org_id) st

/-- The side conditions of claim C1 for one operation: a create supplies
no explicit position and a fresh id; a move's `new_position` lies in
`[0, N-1]` and its block is on the claimed page.  The `≤ 100` bounds keep
the page within the default listing page size `get_blocks_by_page`
queries with. -/
def okBlockOp (page_id org_id : Nat) (st : St) : BlockOp → Bool
  | .create new_id bd =>
    bd.position == none &&
      (pageBlocks st page_id org_id).length ≤ 100 &&
      (st.blocks.map Block.block_id).all (fun i => i ≠ new_id)
  | .move block_id new_position =>
    match get_block st block_id org_id with
    | none => true
    | some bm =>
      bm.page_id == page_id &&
        new_position < (pageBlocks st page_id org_id).length &&
        (pageBlocks st page_id org_id).length ≤ 100

/-- All side conditions hold along a sequence. -/
def okBlockSeq (page_id org_id : Nat) : St → List BlockOp → Bool
  | _, [] => true
  | st, op :: ops =>
    okBlockOp page_id org_id st op &&
      okBlockSeq page_id org_id (applyBlockOp page_id org_id st op) ops

/-- A tag operation of claim C10's sequences. -/
inductive TagOp : Type
  | assign (block_id tag_id : Nat)
  | remove (block_id tag_id : Nat)
deriving Repr, DecidableEq

/-- Apply one tag operation (raises leave the store unchanged). -/
def applyTagOp (org_id : Nat) (st : St) : TagOp → St
  | .assign block_id tag_id => (assign_tag_to_block st block_id tag_id org_id).2
  | .remove block_id tag_id => (remove_tag_from_block st block_id tag_id org_id).2

/-- Apply a sequence of tag operations left to right. -/
def applyTagOps (org_id : Nat) (st : St) (ops : List TagOp) : St :=
  ops.foldl (applyTagOp org_id) st

/-- No tag's usage count is negative. -/
def usageOk (st : St) : Prop := ∀ t ∈ st.tags, 0 ≤ t.usage_count

instance (st : St) : Decidable (usageOk st) := by
  unfold usageOk; infer_instance

/-- A plain-text block fixture for concrete test states. -/
def mkBlock (i p pos o : Nat) : Block :=
  { block_id := i, page_id := p, organization_id := o,
    block_type := "text".data, position := pos, content := {},
    tags := [], created_at := [] }

/-- A three-block page (positions 0, 1, 2) in tenant 0. -/
def threeBlockSt : St :=
  { pages := [{ page_id := 0, organization_id := 0 }],
    blocks := [mkBlock 1 0 0 0, mkBlock 2 0 1 0, mkBlock 3 0 2 0],
    links := [], tags := [] }

/-- An empty page in tenant 0. -/
def emptyPageSt : St :=
  { pages := [{ page_id := 0, organization_id := 0 }],
    blocks := [], links := [], tags := [] }

/-- A page holding 101 blocks (positions 0 … 100) in tenant 0 — one more
than the default listing limit of `get_blocks_by_page`. -/
def bigPageSt : St :=
  { pages := [{ page_id := 0, organization_id := 0 }],
    blocks := (List.range 101).map (fun i => mkBlock i 0 i 0),
    links := [], tags := [] }

/-- An existing reference link 2 → 1 in tenant 0. -/
def cycleLink : Link :=
  { link_id := 10, organization_id := 0, source_block_id := 2,
    target_block_id := some 1, target_page_id := none,
    link_type := "reference".data }

/-- Link fixture: blocks 1 and 2 in tenant 0 with the existing reference
link 2 → 1. -/
def cycleSt : St :=
  { pages := [], blocks := [mkBlock 1 0 0 0, mkBlock 2 0 1 0],
    links := [cycleLink], tags := [] }

/-- Link fixture: a single block (id 1, tenant 0) with no links. -/
def loneBlockSt : St :=
  { pages := [], blocks := [mkBlock 1 0 0 0], links := [], tags := [] }

/-- Link fixture: a single block (id 7, tenant 3) with no links. -/
def loneBlockSt2 : St :=
  { pages := [], blocks := [mkBlock 7 0 0 3], links := [], tags := [] }

/-- Link fixture: blocks 4 and 5 in tenant 0 where block 4 already links
out to block 5 (and no path leads back to 4). -/
def outLinkSt : St :=
  { pages := [], blocks := [mkBlock 4 0 0 0, mkBlock 5 0 1 0],
    links := [{ link_id := 20, organization_id := 0, source_block_id := 4,
                target_block_id := some 5, target_page_id := none,
                link_type := "reference".data }],
    tags := [] }

/-- Search fixture: tenant 0 holding a single link block (id 7) whose
text is "a" and whose URL is "b". -/
def linkBlockSt : St :=
  { pages := [], links := [], tags := [],
    blocks := [{ block_id := 7, page_id := 0, organization_id := 0,
                 block_type := "link".data, position := 0,
                 content := { text := some "a".data, url := some "b".data },
                 tags := [], created_at := [] }] }

/-- Vector fixture: embedding succeeds, similarity search responds with
zero hits (a tenant with no stored vectors). -/
def emptyVecEnv : VectorEnv :=
  { embedResponse := fun _ => some [[1]],
    searchResponse := fun _ _ _ => some [] }

/-- Vector fixture: the embeddings endpoint is down (non-200), similarity
search would answer normally. -/
def downVecEnv : VectorEnv :=
  { embedResponse := fun _ => none,
    searchResponse := fun _ _ _ => some [] }

/-- Scenario E fixture: tenant 0 with one tag ("urgent", usage 0) and one
untagged block. -/
def scenarioESt : St :=
  { pages := [{ page_id := 0, organization_id := 0 }],
    blocks := [mkBlock 5 0 0 0],
    links := [],
    tags := [{ tag_id := 1, organization_id := 0, name := "urgent".data,
               usage_count := 0 }] }

/-- The position claim C2 specifies for each block of the page after
`move_block(block_id, new_position)` moves the block from `old` to
`new_position`: the moved block lands on `new_position`; with
`new_position > old` every other block with
`old < position ≤ new_position` shifts back one; with
`new_position < old` every other block with
`new_position ≤ position < old` shifts forward one. -/
def specShiftedPosition (block_id old new_position : Nat) (b : Block) : Nat :=
  if b.block_id = block_id then new_position
  else if old < b.position ∧ b.position ≤ new_position then b.position - 1
  else if new_position ≤ b.position ∧ b.position < old then b.position + 1
  else b.position

/-! ## Toolkit lemmas: the stable sorts -/

theorem sortByKeyDesc_perm {α β : Type} [LinearOrder β] (f : α → β) (l : List α) :
    List.Perm (sortByKeyDesc f l) l :=
  List.perm_insertionSort _ l

theorem sortByKeyAsc_perm {α β : Type} [LinearOrder β] (f : α → β) (l : List α) :
    List.Perm (sortByKeyAsc f l) l :=
  List.perm_insertionSort _ l

theorem sortByKeyDesc_length {α β : Type} [LinearOrder β] (f : α → β) (l : List α) :
    (sortByKeyDesc f l).length = l.length :=
  (sortByKeyDesc_perm f l).length_eq

theorem sortByKeyAsc_length {α β : Type} [LinearOrder β] (f : α → β) (l : List α) :
    (sortByKeyAsc f l).length = l.length :=
  (sortByKeyAsc_perm f l).length_eq

theorem mem_sortByKeyDesc {α β : Type} [LinearOrder β] {f : α → β} {l : List α} {x : α} :
    x ∈ sortByKeyDesc f l ↔ x ∈ l :=
  (sortByKeyDesc_perm f l).mem_iff

theorem mem_sortByKeyAsc {α β : Type} [LinearOrder β] {f : α → β} {l : List α} {x : α} :
    x ∈ sortByKeyAsc f l ↔ x ∈ l :=
  (sortByKeyAsc_perm f l).mem_iff

theorem sortByKeyDesc_pairwise {α β : Type} [LinearOrder β] (f : α → β) (l : List α) :
    (sortByKeyDesc f l).Pairwise (fun a b => f b ≤ f a) := by
  haveI : IsTotal α (fun a b => f b ≤ f a) := ⟨fun a b => le_total (f b) (f a)⟩
  haveI : IsTrans α (fun a b => f b ≤ f a) := ⟨fun _ _ _ h1 h2 => le_trans h2 h1⟩
  exact List.sorted_insertionSort _ l

theorem filter_orderedInsert_key {α β : Type} [LinearOrder β] (f : α → β) (c : β) (a : α) :
    ∀ l : List α,
      (List.orderedInsert (fun x y => f y ≤ f x) a l).filter (fun x => decide (f x = c)) =
        if f a = c then a :: l.filter (fun x => decide (f x = c))
        else l.filter (fun x => decide (f x = c))
  | [] => by
    by_cases h : f a = c <;> simp [List.orderedInsert, List.filter, h]
  | y :: ys => by
    show (if f y ≤ f a then a :: y :: ys
        else y :: List.orderedInsert (fun x y => f y ≤ f x) a ys).filter
          (fun x => decide (f x = c)) = _
    by_cases hy : f y ≤ f a
    · rw [if_pos hy]
      by_cases h : f a = c <;> simp [List.filter_cons, h]
    · rw [if_neg hy]
      have hlt : f a < f y := lt_of_not_le hy
      rw [List.filter_cons, List.filter_cons, filter_orderedInsert_key f c a ys]
      by_cases h : f a = c
      · have hyc : ¬ f y = c := by
          intro e
          rw [h] at hlt; rw [e] at hlt
          exact lt_irrefl c hlt
        simp [h, hyc]
      · by_cases hyc : f y = c <;> simp [h, hyc]

/-- Stability of the descending sort: the elements carrying any fixed key
value appear in the output in exactly their input order. -/
theorem sortByKeyDesc_filter_key {α β : Type} [LinearOrder β] (f : α → β) (c : β) :
    ∀ l : List α,
      (sortByKeyDesc f l).filter (fun x => decide (f x = c)) =
        l.filter (fun x => decide (f x = c))
  | [] => rfl
  | x :: xs => by
    have ih := sortByKeyDesc_filter_key f c xs
    unfold sortByKeyDesc at ih
    show (List.orderedInsert _ x (List.insertionSort _ xs)).filter _ = _
    rw [filter_orderedInsert_key]
    by_cases h : f x = c <;> simp [h, List.filter_cons, ih]

/-! ## Toolkit lemmas: split/join on a separator character -/

theorem splitOnChar_ne_nil (c : Char) : ∀ s : Str, splitOnChar c s ≠ []
  | [] => by simp [splitOnChar]
  | x :: xs => by
    simp only [splitOnChar]
    rcases h : splitOnChar c xs with _ | ⟨h', t⟩
    · exact absurd h (splitOnChar_ne_nil c xs)
    · by_cases hx : x = c <;> simp [hx, h]

/-- Python's `sep.join(s.split(sep))` round trip for a one-character
separator. -/
theorem joinSep_splitOnChar (c : Char) : ∀ s : Str, joinSep [c] (splitOnChar c s) = s
  | [] => rfl
  | x :: xs => by
    have ih := joinSep_splitOnChar c xs
    simp only [splitOnChar]
    rcases h : splitOnChar c xs with _ | ⟨h', t⟩
    · exact absurd h (splitOnChar_ne_nil c xs)
    · rw [h] at ih
      by_cases hx : x = c

      · subst hx
        simp only [if_pos rfl]
        show joinSep [x] ([] :: h' :: t) = x :: xs
        rw [show joinSep [x] ([] :: h' :: t) = [] ++ [x] ++ joinSep [x] (h' :: t) from rfl]
        simpa using ih
      · simp only [if_neg hx]
        cases t with
        | nil =>
          show joinSep [c] [x :: h'] = x :: xs
          simp only [joinSep]
          simp only [joinSep] at ih
          simp [ih]
        | cons t0 ts =>
          show joinSep [c] ((x :: h') :: t0 :: ts) = x :: xs
          rw [show joinSep [c] ((x :: h') :: t0 :: ts)
              = (x :: h') ++ [c] ++ joinSep [c] (t0 :: ts) from rfl]
          rw [show joinSep [c] (h' :: t0 :: ts)
              = h' ++ [c] ++ joinSep [c] (t0 :: ts) from rfl] at ih
          simp [ih]

/-! ## The content converter round trip -/

/-- Constructing content of a valid type from a canonical text and
re-extracting the text is the identity. -/
theorem conversionText_buildContent (t : Str) (b : Str) (hb : b ∈ validTypes) :
    conversionText (buildContent t b) b = t := by
  fin_cases hb
  · simp +decide [conversionText, buildContent]
  · simp +decide [conversionText, buildContent]
  · by_cases ht : t = []
    · subst ht
      simp +decide [conversionText, buildContent, joinSep]
    · simp +decide [conversionText, buildContent, ht, joinSep_splitOnChar]
  · simp +decide [conversionText, buildContent]
  · simp +decide [conversionText, buildContent]
  · simp +decide [conversionText, buildContent]

/-- C7: for every block content value and every pair of block types
`typeA` (the block's original type) and `typeB`, converting the content
from `typeA` to `typeB` and back to `typeA` preserves the canonical text
payload exactly: the §4.3 text extraction of the round-tripped content
equals the extraction of the original content.  (The type-specific fields
`checked`, `url`, `linkedPageId` are not claimed preserved.) -/
theorem claim_C7_convert_roundtrip (c : Content) (typeA typeB : Str)
    (hA : typeA ∈ validTypes) (hB : typeB ∈ validTypes) :
    conversionText
        (_convert_block_content (_convert_block_content c typeA typeB) typeB typeA)
        typeA
      = conversionText c typeA := by
  unfold _convert_block_content
  rw [conversionText_buildContent _ _ hB, conversionText_buildContent _ _ hA]

/-- Witness for C7: a concrete round trip (`task → list → task` on the
text `"a\nb"`). -/
theorem claim_C7_witness :
    "task".data ∈ validTypes ∧ "list".data ∈ validTypes ∧
      conversionText
          (_convert_block_content
            (_convert_block_content { text := some "a\nb".data } "task".data "list".data)
            "list".data "task".data)
          "task".data
        = conversionText ({ text := some "a\nb".data } : Content) "task".data :=
  ⟨by decide, by decide,
    claim_C7_convert_roundtrip { text := some "a\nb".data } "task".data "list".data
      (by decide) (by decide)⟩

/-! ## Next-position assignment (claim C9) -/

/-- What `_get_next_block_position` actually computes: the page's block
count capped at the default listing limit 100. -/
theorem nextPos_eq_min (st : St) (page_id org_id : Nat) :
    _get_next_block_position st page_id org_id =
      min (pageBlocks st page_id org_id).length 100 := by
  unfold _get_next_block_position get_blocks_by_page
  rw [sortByKeyAsc_length, List.length_take, Nat.min_comm]

/-- C9 (amended): the position assigned to a newly created block that
supplies no explicit position is the number of existing blocks the
default block listing returns, i.e. `min(N, 100)` for `N` the page's
block count — equal to `N` exactly when the page holds at most 100
blocks. -/
theorem claim_C9_next_position (st : St) (page_id org_id : Nat) :
    _get_next_block_position st page_id org_id =
      min (pageBlocks st page_id org_id).length 100 :=
  nextPos_eq_min st page_id org_id

/-- Counterexample for C9 as stated: on a page holding 101 blocks the
next assigned position is 100, not the block count 101 (the listing that
`_get_next_block_position` counts is truncated at the default limit
100). -/
theorem claim_C9_counterexample :
    (pageBlocks
        { pages := [{ page_id := 0, organization_id := 0 }],
          blocks := (List.range 101).map (fun i =>
            { block_id := i, page_id := 0, organization_id := 0,
              block_type := "text".data, position := i, content := {},
              tags := [], created_at := [] }),
          links := [], tags := [] } 0 0).length = 101 ∧
    _get_next_block_position
        { pages := [{ page_id := 0, organization_id := 0 }],
          blocks := (List.range 101).map (fun i =>
            { block_id := i, page_id := 0, organization_id := 0,
              block_type := "text".data, position := i, content := {},
              tags := [], created_at := [] }),
          links := [], tags := [] } 0 0 = 100 := by
  constructor
  · decide
  · rw [nextPos_eq_min]
    decide

/-! ## Move-block machinery (claims C1, C2) -/

theorem updPos_of_ne_id {org_id uid newPos : Nat} {b : Block}
    (h : b.block_id ≠ uid) : updPos org_id uid newPos b = b := by
  unfold updPos
  simp [h]

theorem updPos_of_eq {org_id uid newPos : Nat} {b : Block}
    (hid : b.block_id = uid) (horg : b.organization_id = org_id) :
    updPos org_id uid newPos b = { b with position := newPos } := by
  unfold updPos
  simp [hid, horg]

theorem updPos_page (org_id uid newPos : Nat) (b : Block) :
    (updPos org_id uid newPos b).page_id = b.page_id := by
  unfold updPos
  split <;> rfl

theorem updPos_org (org_id uid newPos : Nat) (b : Block) :
    (updPos org_id uid newPos b).organization_id = b.organization_id := by
  unfold updPos
  split <;> rfl

theorem updPos_id (org_id uid newPos : Nat) (b : Block) :
    (updPos org_id uid newPos b).block_id = b.block_id := by
  unfold updPos
  split <;> rfl

/-- The per-block sequential writes of `move_block` amount to mapping the
accumulated update over every row. -/
theorem foldl_update_blocks (org_id : Nat) (updates : List (Nat × Nat)) :
    ∀ st : St,
      (updates.foldl
        (fun s u => { s with blocks := s.blocks.map (updPos org_id u.1 u.2) }) st).blocks
        = st.blocks.map (fun b =>
            updates.foldl (fun x u => updPos org_id u.1 u.2 x) b) := by
  induction updates with
  | nil => intro st; simp
  | cons u us ih =>
    intro st
    rw [List.foldl_cons, ih]
    simp [List.map_map, Function.comp]

theorem foldl_updPos_of_forall_ne {org_id : Nat} {updates : List (Nat × Nat)} {b : Block}
    (h : ∀ u ∈ updates, u.1 ≠ b.block_id) :
    updates.foldl (fun x u => updPos org_id u.1 u.2 x) b = b := by
  induction updates with
  | nil => rfl
  | cons u us ih =>
    rw [List.foldl_cons, updPos_of_ne_id (fun e => h u (List.mem_cons_self u us) (e ▸ rfl))]
    exact ih (fun v hv => h v (List.mem_cons_of_mem u hv))

/-- Applying a list of updates containing at most one entry for `b`'s id:
the result keeps `b` unless that entry exists, in which case it rewrites
the position. -/
theorem foldl_updPos_find {org_id : Nat} {b : Block}
    (horg : b.organization_id = org_id) :
    ∀ {updates : List (Nat × Nat)},
      (updates.filter (fun u => u.1 == b.block_id)).length ≤ 1 →
      updates.foldl (fun x u => updPos org_id u.1 u.2 x) b =
        (match updates.find? (fun u => u.1 == b.block_id) with
         | none => b
         | some u => { b with position := u.2 })
  | [], _ => rfl
  | u :: us, huniq => by
    by_cases hu : u.1 = b.block_id
    · rw [List.foldl_cons, updPos_of_eq hu.symm horg]
      have hfind : (u :: us).find? (fun u => u.1 == b.block_id) = some u := by
        rw [List.find?_cons_of_pos]
        simp [hu]
      rw [hfind]
      have hrest : ∀ v ∈ us, v.1 ≠ b.block_id := by
        intro v hv hvb
        have : 2 ≤ ((u :: us).filter (fun u => u.1 == b.block_id)).length := by
          rw [List.filter_cons_of_pos (by simp [hu])]
          have : v ∈ us.filter (fun u => u.1 == b.block_id) :=
            List.mem_filter.2 ⟨hv, by simp [hvb]⟩
          have : 1 ≤ (us.filter (fun u => u.1 == b.block_id)).length :=
            List.length_pos.2 (List.ne_nil_of_mem this)
          simpa using Nat.succ_le_succ this
        omega
      exact foldl_updPos_of_forall_ne (fun v hv => hrest v hv)
    · rw [List.foldl_cons, updPos_of_ne_id (fun e => hu e.symm)]
      have hfind : (u :: us).find? (fun u => u.1 == b.block_id) =
          us.find? (fun u => u.1 == b.block_id) := by
        rw [List.find?_cons_of_neg]
        simp [hu]
      rw [hfind]
      have huniq' : (us.filter (fun u => u.1 == b.block_id)).length ≤ 1 := by
        rw [List.filter_cons_of_neg (by simp [hu])] at huniq
        exact huniq
      exact foldl_updPos_find horg huniq'

theorem find?_eq_some_of_unique {α : Type} {p : α → Bool} {l : List α} {a : α}
    (ha : a ∈ l) (hpa : p a = true) (huniq : ∀ x ∈ l, p x = true → x = a) :
    l.find? p = some a := by
  induction l with
  | nil => cases ha
  | cons y ys ih =>
    by_cases hy : p y = true
    · rw [List.find?_cons_of_pos _ hy]
      exact congrArg some (huniq y (List.mem_cons_self y ys) hy)
    · rw [List.find?_cons_of_neg _ hy]
      rcases List.mem_cons.1 ha with rfl | ha'
      · exact absurd hpa hy
      · exact ih ha' (fun x hx hpx => huniq x (List.mem_cons_of_mem y hx) hpx)

/-- Two blocks of an id-unique row list agreeing on ids are equal. -/
theorem block_id_inj {l : List Block} (hwf : (l.map Block.block_id).Nodup)
    {a b : Block} (ha : a ∈ l) (hb : b ∈ l) (h : a.block_id = b.block_id) :
    a = b :=
  List.inj_on_of_nodup_map hwf ha hb h

/-- An id-unique row list has at most one row with a given id. -/
theorem filter_id_le_one {l : List Block} (hwf : (l.map Block.block_id).Nodup)
    (x : Nat) : (l.filter (fun b => b.block_id == x)).length ≤ 1 := by
  induction l with
  | nil => simp
  | cons a as ih =>
    rw [List.map_cons, List.nodup_cons] at hwf
    by_cases hax : a.block_id = x
    · rw [List.filter_cons_of_pos (by simp [hax])]
      have : as.filter (fun b => b.block_id == x) = [] := by
        rw [List.filter_eq_nil_iff]
        intro b hb
        simp only [beq_iff_eq]
        intro hbx
        exact hwf.1 (hax ▸ hbx ▸ List.mem_map_of_mem Block.block_id hb)
      simp [this]
    · rw [List.filter_cons_of_neg (by simp [hax])]
      exact ih hwf.2

theorem get_block_spec {st : St} {block_id org_id : Nat} {bm : Block}
    (h : get_block st block_id org_id = some bm) :
    bm ∈ st.blocks ∧ bm.block_id = block_id ∧ bm.organization_id = org_id := by
  unfold get_block at h
  have hmem := List.mem_of_mem_head? (Option.mem_def.2 h)
  rcases List.mem_filter.1 hmem with ⟨hb, hcond⟩
  simp only [Bool.and_eq_true, beq_iff_eq] at hcond
  exact ⟨hb, hcond.1, hcond.2⟩

/-- With at most 100 blocks on the page, the listing `move_block` reads is
a permutation of the page's full block set. -/
theorem gbp_perm {st : St} {page_id org_id : Nat}
    (hcnt : (pageBlocks st page_id org_id).length ≤ 100) :
    List.Perm (get_blocks_by_page st page_id org_id) (pageBlocks st page_id org_id) := by
  unfold get_blocks_by_page
  rw [List.take_of_length_le hcnt]
  exact sortByKeyAsc_perm _ _

theorem pageBlocks_sub (st : St) (page_id org_id : Nat) :
    ∀ b ∈ pageBlocks st page_id org_id,
      b ∈ st.blocks ∧ b.page_id = page_id ∧ b.organization_id = org_id := by
  intro b hb
  rcases List.mem_filter.1 hb with ⟨hmem, hcond⟩
  simp only [Bool.and_eq_true, beq_iff_eq] at hcond
  exact ⟨hmem, hcond.1, hcond.2⟩

theorem mem_pageBlocks {st : St} {page_id org_id : Nat} {b : Block}
    (hmem : b ∈ st.blocks) (hp : b.page_id = page_id)
    (ho : b.organization_id = org_id) : b ∈ pageBlocks st page_id org_id :=
  List.mem_filter.2 ⟨hmem, by simp [hp, ho]⟩

/-- Ids stay unique across the page listing. -/
theorem gbp_ids_nodup {st : St} {page_id org_id : Nat} (hwf : wfIds st)
    (hcnt : (pageBlocks st page_id org_id).length ≤ 100) :
    ((get_blocks_by_page st page_id org_id).map Block.block_id).Nodup := by
  have hsub : ((pageBlocks st page_id org_id).map Block.block_id).Sublist
      (st.blocks.map Block.block_id) :=
    (List.filter_sublist st.blocks).map Block.block_id
  have hnodup := hwf.sublist hsub
  exact (((gbp_perm hcnt).map Block.block_id).nodup_iff).2 hnodup

theorem foldl_updPos_id (org_id : Nat) (updates : List (Nat × Nat)) (b : Block) :
    (updates.foldl (fun x u => updPos org_id u.1 u.2 x) b).block_id = b.block_id := by
  induction updates generalizing b with
  | nil => rfl
  | cons u us ih => rw [List.foldl_cons, ih, updPos_id]

theorem foldl_updPos_page (org_id : Nat) (updates : List (Nat × Nat)) (b : Block) :
    (updates.foldl (fun x u => updPos org_id u.1 u.2 x) b).page_id = b.page_id := by
  induction updates generalizing b with
  | nil => rfl
  | cons u us ih => rw [List.foldl_cons, ih, updPos_page]

theorem foldl_updPos_org (org_id : Nat) (updates : List (Nat × Nat)) (b : Block) :
    (updates.foldl (fun x u => updPos org_id u.1 u.2 x) b).organization_id
      = b.organization_id := by
  induction updates generalizing b with
  | nil => rfl
  | cons u us ih => rw [List.foldl_cons, ih, updPos_org]

/-- The blocks table after a non-trivial `move_block`, as one map over the
rows. -/
theorem move_block_blocks (st : St) {block_id new_position org_id : Nat} {bm : Block}
    (hget : get_block st block_id org_id = some bm)
    (hne : bm.position ≠ new_position) :
    (move_block st block_id new_position org_id).2.blocks =
      st.blocks.map (fun b =>
        updPos org_id block_id new_position
          ((moveUpdates (get_blocks_by_page st bm.page_id org_id)
              block_id bm.position new_position).foldl
            (fun x u => updPos org_id u.1 u.2 x) b)) := by
  unfold move_block
  rw [hget]
  simp only [beq_iff_eq, if_neg hne]
  rw [foldl_update_blocks, List.map_map]
  rfl

/-- No `updates_needed` entry targets the moved block itself. -/
theorem moveUpdates_fst_ne (all_blocks : List Block)
    (block_id old_position new_position : Nat) :
    ∀ u ∈ moveUpdates all_blocks block_id old_position new_position,
      u.1 ≠ block_id := by
  intro u hu
  unfold moveUpdates at hu
  split at hu <;>
  · rcases List.mem_map.1 hu with ⟨a, ha, rfl⟩
    rcases List.mem_filter.1 ha with ⟨-, hcond⟩
    simp only [Bool.and_eq_true, decide_eq_true_eq] at hcond
    exact hcond.2

/-- At most one `updates_needed` entry per block id. -/
theorem moveUpdates_filter_le_one {all_blocks : List Block}
    (hids : (all_blocks.map Block.block_id).Nodup)
    (block_id old_position new_position x : Nat) :
    ((moveUpdates all_blocks block_id old_position new_position).filter
      (fun u => u.1 == x)).length ≤ 1 := by
  have key : ∀ (C : Block → Bool) (g : Block → Nat),
      (((all_blocks.filter C).map (fun a => (a.block_id, g a))).filter
        (fun u => u.1 == x)).length ≤ 1 := by
    intro C g
    rw [List.filter_map, List.length_map]
    have h1 : ((all_blocks.filter C).filter
        ((fun u : Nat × Nat => u.1 == x) ∘ (fun a => (a.block_id, g a)))) =
        ((all_blocks.filter C).filter (fun b => b.block_id == x)) := rfl
    rw [h1]
    exact le_trans
      (((List.filter_sublist all_blocks).filter _).length_le)
      (filter_id_le_one hids x)
  unfold moveUpdates
  split
  · exact key _ _
  · exact key _ _

/-- What the accumulated `move_block` writes do to one block of the page:
exactly the shift the spec describes. -/
theorem move_position_pointwise (st : St) {block_id new_position org_id : Nat}
    {bm : Block} (hwf : wfIds st) (hget : get_block st block_id org_id = some bm)
    (hcnt : (pageBlocks st bm.page_id org_id).length ≤ 100)
    {b : Block} (hb : b ∈ pageBlocks st bm.page_id org_id) :
    (updPos org_id block_id new_position
        ((moveUpdates (get_blocks_by_page st bm.page_id org_id)
            block_id bm.position new_position).foldl
          (fun x u => updPos org_id u.1 u.2 x) b)).position
      = specShiftedPosition block_id bm.position new_position b := by
  obtain ⟨hbmem, hbpage, hborg⟩ := pageBlocks_sub st _ _ b hb
  obtain ⟨hbm_mem, hbm_id, hbm_org⟩ := get_block_spec hget
  have hIds := gbp_ids_nodup hwf hcnt
  have hbAB : b ∈ get_blocks_by_page st bm.page_id org_id := (gbp_perm hcnt).mem_iff.2 hb
  by_cases hid : b.block_id = block_id
  · have hfold : (moveUpdates (get_blocks_by_page st bm.page_id org_id)
        block_id bm.position new_position).foldl
          (fun x u => updPos org_id u.1 u.2 x) b = b :=
      foldl_updPos_of_forall_ne (fun u hu =>
        hid ▸ moveUpdates_fst_ne _ block_id bm.position new_position u hu)
    rw [hfold, updPos_of_eq hid hborg]
    simp [specShiftedPosition, hid]
  · have hfold := @foldl_updPos_find org_id b hborg _
      (moveUpdates_filter_le_one hIds block_id bm.position new_position b.block_id)
    by_cases hdir : new_position > bm.position
    · by_cases hcond : bm.position < b.position ∧ b.position ≤ new_position
      · have hmem_upd : (b.block_id, b.position - 1) ∈
            moveUpdates (get_blocks_by_page st bm.page_id org_id)
              block_id bm.position new_position := by
          unfold moveUpdates
          rw [if_pos hdir]
          exact List.mem_map_of_mem _
            (List.mem_filter.2 ⟨hbAB, by simp [hcond.1, hcond.2, hid]⟩)
        have hfind : (moveUpdates (get_blocks_by_page st bm.page_id org_id)
            block_id bm.position new_position).find?
              (fun u => u.1 == b.block_id) = some (b.block_id, b.position - 1) := by
          apply find?_eq_some_of_unique hmem_upd (by simp)
          intro u hu hpu
          unfold moveUpdates at hu
          rw [if_pos hdir] at hu
          rcases List.mem_map.1 hu with ⟨a, ha, rfl⟩
          rcases List.mem_filter.1 ha with ⟨haAB, -⟩
          simp only [beq_iff_eq] at hpu
          rw [block_id_inj hIds haAB hbAB hpu]
        rw [hfold, hfind]
        show (updPos org_id block_id new_position
            { b with position := b.position - 1 }).position = _
        rw [updPos_of_ne_id (b := { b with position := b.position - 1 }) hid]
        have h3 : ¬ (new_position ≤ b.position ∧ b.position < bm.position) := by omega
        simp [specShiftedPosition, hid, hcond, h3]
      · have hfind : (moveUpdates (get_blocks_by_page st bm.page_id org_id)
            block_id bm.position new_position).find?
              (fun u => u.1 == b.block_id) = none := by
          rw [List.find?_eq_none]
          intro u hu
          unfold moveUpdates at hu
          rw [if_pos hdir] at hu
          rcases List.mem_map.1 hu with ⟨a, ha, rfl⟩
          rcases List.mem_filter.1 ha with ⟨haAB, hacond⟩
          simp only [Bool.and_eq_true, decide_eq_true_eq] at hacond
          simp only [beq_iff_eq]
          intro hab
          have : a = b := block_id_inj hIds haAB hbAB hab
          subst this
          exact hcond ⟨hacond.1.1, hacond.1.2⟩
        rw [hfold, hfind]
        show (updPos org_id block_id new_position b).position = _
        rw [updPos_of_ne_id hid]
        have h3 : ¬ (new_position ≤ b.position ∧ b.position < bm.position) := by omega
        simp [specShiftedPosition, hid, hcond, h3]
    · by_cases hcond : new_position ≤ b.position ∧ b.position < bm.position
      · have hmem_upd : (b.block_id, b.position + 1) ∈
            moveUpdates (get_blocks_by_page st bm.page_id org_id)
              block_id bm.position new_position := by
          unfold moveUpdates
          rw [if_neg hdir]
          exact List.mem_map_of_mem _
            (List.mem_filter.2 ⟨hbAB, by simp [hcond.1, hcond.2, hid]⟩)
        have hfind : (moveUpdates (get_blocks_by_page st bm.page_id org_id)
            block_id bm.position new_position).find?
              (fun u => u.1 == b.block_id) = some (b.block_id, b.position + 1) := by
          apply find?_eq_some_of_unique hmem_upd (by simp)
          intro u hu hpu
          unfold moveUpdates at hu
          rw [if_neg hdir] at hu
          rcases List.mem_map.1 hu with ⟨a, ha, rfl⟩
          rcases List.mem_filter.1 ha with ⟨haAB, -⟩
          simp only [beq_iff_eq] at hpu
          rw [block_id_inj hIds haAB hbAB hpu]
        rw [hfold, hfind]
        show (updPos org_id block_id new_position
            { b with position := b.position + 1 }).position = _
        rw [updPos_of_ne_id (b := { b with position := b.position + 1 }) hid]
        have h2 : ¬ (bm.position < b.position ∧ b.position ≤ new_position) := by omega
        simp [specShiftedPosition, hid, hcond, h2]
      · have hfind : (moveUpdates (get_blocks_by_page st bm.page_id org_id)
            block_id bm.position new_position).find?
              (fun u => u.1 == b.block_id) = none := by
          rw [List.find?_eq_none]
          intro u hu
          unfold moveUpdates at hu
          rw [if_neg hdir] at hu
          rcases List.mem_map.1 hu with ⟨a, ha, rfl⟩
          rcases List.mem_filter.1 ha with ⟨haAB, hacond⟩
          simp only [Bool.and_eq_true, decide_eq_true_eq] at hacond
          simp only [beq_iff_eq]
          intro hab
          have : a = b := block_id_inj hIds haAB hbAB hab
          subst this
          exact hcond ⟨hacond.1.1, hacond.1.2⟩
        rw [hfold, hfind]
        show (updPos org_id block_id new_position b).position = _
        rw [updPos_of_ne_id hid]
        have h2 : ¬ (bm.position < b.position ∧ b.position ≤ new_position) := by omega
        simp [specShiftedPosition, hid, hcond, h2]

/-- A trivial `move_block` (equal positions) returns the fetched block and
leaves the store untouched. -/
theorem move_block_noop (st : St) {block_id new_position org_id : Nat} {bm : Block}
    (hget : get_block st block_id org_id = some bm)
    (heq : bm.position = new_position) :
    move_block st block_id new_position org_id = (some bm, st) := by
  unfold move_block
  rw [hget]
  simp [heq]

/-- The page's rows after a non-trivial `move_block`, as a map over the
page's previous rows (the writes change neither page nor tenant). -/
theorem move_block_pageBlocks (st : St) {block_id new_position org_id : Nat}
    {bm : Block} (hget : get_block st block_id org_id = some bm)
    (hne : bm.position ≠ new_position) (p o : Nat) :
    pageBlocks (move_block st block_id new_position org_id).2 p o
      = (pageBlocks st p o).map (fun b =>
          updPos org_id block_id new_position
            ((moveUpdates (get_blocks_by_page st bm.page_id org_id)
                block_id bm.position new_position).foldl
              (fun x u => updPos org_id u.1 u.2 x) b)) := by
  unfold pageBlocks
  rw [move_block_blocks st hget hne, List.filter_map]
  refine congrArg (List.map _) (List.filter_congr ?_)
  intro b _
  show ((updPos org_id block_id new_position _).page_id == p &&
      (updPos org_id block_id new_position _).organization_id == o) = _
  rw [updPos_page, updPos_org, foldl_updPos_page, foldl_updPos_org]

/-- Every page block survives a non-trivial `move_block` with the same id
and the specified position. -/
theorem move_block_position (st : St) {block_id new_position org_id : Nat}
    {bm : Block} (hwf : wfIds st) (hget : get_block st block_id org_id = some bm)
    (hne : bm.position ≠ new_position)
    (hcnt : (pageBlocks st bm.page_id org_id).length ≤ 100) :
    ∀ b ∈ pageBlocks st bm.page_id org_id,
      ∃ b' ∈ pageBlocks (move_block st block_id new_position org_id).2
          bm.page_id org_id,
        b'.block_id = b.block_id ∧
        b'.position = specShiftedPosition block_id bm.position new_position b := by
  intro b hb
  refine ⟨_, ?_, ?_, move_position_pointwise st hwf hget hcnt hb⟩
  · rw [move_block_pageBlocks st hget hne]
    exact List.mem_map_of_mem _ hb
  · rw [updPos_id, foldl_updPos_id]

/-- C2: `move_block(block_id, new_position, org_id)` on an existing block
is a no-op when `new_position` equals the current position; otherwise
every block of the page survives with its id and lands exactly on the
position the spec describes (`specShiftedPosition`): the moved block on
`new_position`, blocks strictly between shifted by one toward the gap,
all else unchanged.  (Stated for pages within the 100-block listing
limit; the counterexample shows the claim fails beyond it.) -/
theorem claim_C2_move_block (st : St) (block_id new_position org_id : Nat)
    (bm : Block) (hwf : wfIds st)
    (hget : get_block st block_id org_id = some bm)
    (hcnt : (pageBlocks st bm.page_id org_id).length ≤ 100) :
    (bm.position = new_position →
      move_block st block_id new_position org_id = (some bm, st)) ∧
    (bm.position ≠ new_position →
      ∀ b ∈ pageBlocks st bm.page_id org_id,
        ∃ b' ∈ pageBlocks (move_block st block_id new_position org_id).2
            bm.page_id org_id,
          b'.block_id = b.block_id ∧
          b'.position = specShiftedPosition block_id bm.position new_position b) :=
  ⟨fun heq => move_block_noop st hget heq,
   fun hne => move_block_position st hwf hget hne hcnt⟩

/-- Witness for C2, scenario A of the spec: a page with blocks at
positions `[0, 1, 2]`; moving the block at position 2 to position 0 gives
`2 → 0`, `0 → 1`, `1 → 2`. -/
theorem claim_C2_witness :
    wfIds threeBlockSt ∧
    ((move_block threeBlockSt 3 0 0).2.blocks.map
      (fun b => (b.block_id, b.position))) = [(1, 1), (2, 2), (3, 0)] ∧
    (∀ b ∈ pageBlocks threeBlockSt 0 0,
      ∃ b' ∈ pageBlocks (move_block threeBlockSt 3 0 0).2 0 0,
        b'.block_id = b.block_id ∧
        b'.position = specShiftedPosition 3 2 0 b) := by
  refine ⟨by decide, by decide, ?_⟩
  exact (claim_C2_move_block threeBlockSt 3 0 0 (mkBlock 3 0 2 0)
    (by decide) (by decide) (by decide)).2 (by decide)

set_option maxRecDepth 100000 in
/-- Counterexample for C2 as stated: on a page of 101 blocks, moving the
block at position 0 to position 100 must (per the claim) shift the block
at position 100 down to 99; the code leaves it at 100 because the page
listing it plans the shifts from is truncated at 100 rows. -/
theorem claim_C2_counterexample :
    get_block bigPageSt 0 0 = some (mkBlock 0 0 0 0) ∧
    (bigPageSt.blocks.find? (fun b => b.block_id == 100)).map
      (fun b => specShiftedPosition 0 0 100 b) = some 99 ∧
    ((move_block bigPageSt 0 100 0).2.blocks.find?
      (fun b => b.block_id == 100)).map (fun b => b.position) = some 100 := by
  refine ⟨by decide, by decide, ?_⟩
  decide

/-! ## Invariant preservation (claim C1) -/

theorem toFinset_map_eq_image {α β : Type} [DecidableEq α] [DecidableEq β]
    (f : α → β) (l : List α) : (l.map f).toFinset = l.toFinset.image f := by
  ext b
  simp

theorem posOk_pos_lt {st : St} {page_id org_id : Nat} (hpos : posOk st page_id org_id) :
    ∀ x ∈ (pageBlocks st page_id org_id).map Block.position,
      x < (pageBlocks st page_id org_id).length :=
  fun _ hx => Finset.mem_range.1 (hpos.2 ▸ List.mem_toFinset.2 hx)

theorem posOk_lt {st : St} {page_id org_id : Nat} (hpos : posOk st page_id org_id) :
    ∀ b ∈ pageBlocks st page_id org_id,
      b.position < (pageBlocks st page_id org_id).length :=
  fun b hb => posOk_pos_lt hpos b.position (List.mem_map_of_mem Block.position hb)

/-- A non-trivial `move_block` never changes block ids, so id uniqueness
survives. -/
theorem move_preserves_wf {st : St} {block_id new_position org_id : Nat} {bm : Block}
    (hwf : wfIds st) (hget : get_block st block_id org_id = some bm) :
    wfIds (move_block st block_id new_position org_id).2 := by
  by_cases heq : bm.position = new_position
  · rw [move_block_noop st hget heq]
    exact hwf
  · unfold wfIds
    rw [move_block_blocks st hget heq, List.map_map]
    have : st.blocks.map (Block.block_id ∘ fun b =>
        updPos org_id block_id new_position
          ((moveUpdates (get_blocks_by_page st bm.page_id org_id)
              block_id bm.position new_position).foldl
            (fun x u => updPos org_id u.1 u.2 x) b))
        = st.blocks.map Block.block_id := by
      apply List.map_congr_left
      intro b _
      show (updPos org_id block_id new_position _).block_id = b.block_id
      rw [updPos_id, foldl_updPos_id]
    rw [this]
    exact hwf

/-- A `move_block` whose target position is in range keeps the page's
positions a gapless, duplicate-free `{0 … N-1}`. -/
theorem move_preserves_posOk {st : St} {block_id new_position org_id : Nat}
    {bm : Block} (hwf : wfIds st)
    (hget : get_block st block_id org_id = some bm)
    (hpos : posOk st bm.page_id org_id)
    (hnp : new_position < (pageBlocks st bm.page_id org_id).length)
    (hcnt : (pageBlocks st bm.page_id org_id).length ≤ 100) :
    posOk (move_block st block_id new_position org_id).2 bm.page_id org_id := by
  by_cases heq : bm.position = new_position
  · rw [move_block_noop st hget heq]
    exact hpos
  · obtain ⟨hbm_mem, hbm_id, hbm_org⟩ := get_block_spec hget
    have hbmpb : bm ∈ pageBlocks st bm.page_id org_id :=
      mem_pageBlocks hbm_mem rfl hbm_org
    have hold : bm.position < (pageBlocks st bm.page_id org_id).length :=
      posOk_lt hpos bm hbmpb
    have hmap := move_block_pageBlocks st hget heq bm.page_id org_id
    have hpoint : ∀ b ∈ pageBlocks st bm.page_id org_id,
        (updPos org_id block_id new_position
            ((moveUpdates (get_blocks_by_page st bm.page_id org_id)
                block_id bm.position new_position).foldl
              (fun x u => updPos org_id u.1 u.2 x) b)).position
          = (fun p => if p = bm.position then new_position
              else if bm.position < p ∧ p ≤ new_position then p - 1
              else if new_position ≤ p ∧ p < bm.position then p + 1
              else p) b.position := by
      intro b hb
      rw [move_position_pointwise st hwf hget hcnt hb]
      by_cases hid : b.block_id = block_id
      · have hb_eq : b = bm :=
          block_id_inj hwf (pageBlocks_sub st _ _ b hb).1 hbm_mem (hid.trans hbm_id.symm)
        subst hb_eq
        simp [specShiftedPosition, hid]
      · have hpne : b.position ≠ bm.position := by
          intro hpe
          exact hid ((List.inj_on_of_nodup_map hpos.1 hb hbmpb hpe) ▸ hbm_id)
        simp only [specShiftedPosition, if_neg hid, if_neg hpne]
    have hlist : ((pageBlocks (move_block st block_id new_position org_id).2
          bm.page_id org_id).map Block.position)
        = ((pageBlocks st bm.page_id org_id).map Block.position).map
            (fun p => if p = bm.position then new_position
              else if bm.position < p ∧ p ≤ new_position then p - 1
              else if new_position ≤ p ∧ p < bm.position then p + 1
              else p) := by
      rw [hmap, List.map_map, List.map_map]
      exact List.map_congr_left hpoint
    have hlen : (pageBlocks (move_block st block_id new_position org_id).2
        bm.page_id org_id).length = (pageBlocks st bm.page_id org_id).length := by
      rw [hmap, List.length_map]
    constructor
    · rw [hlist]
      apply List.Nodup.map_on ?_ hpos.1
      intro x hx y hy hxy
      have hxN := posOk_pos_lt hpos x hx
      have hyN := posOk_pos_lt hpos y hy
      simp only at hxy
      split_ifs at hxy <;> omega
    · rw [hlist, hlen, toFinset_map_eq_image, hpos.2]
      apply Finset.eq_of_subset_of_card_le
      · intro m hm
        rcases Finset.mem_image.1 hm with ⟨x, hx, rfl⟩
        have hxN := Finset.mem_range.1 hx
        apply Finset.mem_range.2
        split_ifs <;> omega
      · rw [Finset.card_image_of_injOn, Finset.card_range]
        intro x hx y hy hxy
        have hxN := Finset.mem_range.1 hx
        have hyN := Finset.mem_range.1 hy
        simp only at hxy
        split_ifs at hxy <;> omega

/-- Inversion of a successful `create_block`: the new row and the
appended store. -/
theorem create_block_ok_inv {st : St} {page_id org_id new_id : Nat} {bd : BlockData}
    {doc : Block} {st' : St}
    (h : create_block st page_id org_id new_id bd = .ok (doc, st')) :
    st' = { st with blocks := st.blocks ++ [doc] } ∧
    doc = { block_id := new_id, page_id := page_id, organization_id := org_id,
            block_type := bd.block_type,
            position := bd.position.getD (_get_next_block_position st page_id org_id),
            content := bd.content, tags := bd.tags, created_at := bd.created_at } := by
  unfold create_block at h
  split at h
  · exact Except.noConfusion h
  · split at h
    · exact Except.noConfusion h
    · rw [Except.ok.injEq, Prod.mk.injEq] at h
      obtain ⟨h1, h2⟩ := h
      subst h1
      exact ⟨h2.symm, rfl⟩

/-- A successful `create_block` with no explicit position preserves both
id uniqueness and the position invariant of its page (when the page held
at most 100 blocks). -/
theorem create_preserves {st : St} {page_id org_id new_id : Nat} {bd : BlockData}
    {doc : Block} {st' : St}
    (h : create_block st page_id org_id new_id bd = .ok (doc, st'))
    (hwf : wfIds st) (hpos : posOk st page_id org_id)
    (hfresh : ∀ i ∈ st.blocks.map Block.block_id, i ≠ new_id)
    (hbd : bd.position = none)
    (hcnt : (pageBlocks st page_id org_id).length ≤ 100) :
    wfIds st' ∧ posOk st' page_id org_id := by
  obtain ⟨hst', hdoc⟩ := create_block_ok_inv h
  have hdp : doc.position = (pageBlocks st page_id org_id).length := by
    rw [hdoc]
    show bd.position.getD (_get_next_block_position st page_id org_id) = _
    rw [hbd, Option.getD_none, nextPos_eq_min, Nat.min_eq_left hcnt]
  have hdocp : doc.page_id = page_id := by rw [hdoc]
  have hdoco : doc.organization_id = org_id := by rw [hdoc]
  have hdocid : doc.block_id = new_id := by rw [hdoc]
  subst hst'
  have hpb : pageBlocks { st with blocks := st.blocks ++ [doc] } page_id org_id
      = pageBlocks st page_id org_id ++ [doc] := by
    show (st.blocks ++ [doc]).filter _ = _
    rw [List.filter_append]
    congr 1
    simp [List.filter_cons, hdocp, hdoco]
  constructor
  · unfold wfIds
    show ((st.blocks ++ [doc]).map Block.block_id).Nodup
    rw [List.map_append, List.nodup_append]
    refine ⟨hwf, by simp, ?_⟩
    intro a ha hb
    simp only [List.map_cons, List.map_nil, List.mem_singleton] at hb
    exact hfresh a ha (hb.trans hdocid)
  · constructor
    · rw [hpb, List.map_append, List.nodup_append]
      refine ⟨hpos.1, by simp, ?_⟩
      intro a ha hb
      simp only [List.map_cons, List.map_nil, List.mem_singleton] at hb
      have := posOk_pos_lt hpos a ha
      omega
    · rw [hpb, List.map_append, List.toFinset_append, hpos.2, List.length_append]
      have hsingle : ((([doc] : List Block).map Block.position).toFinset : Finset ℕ)
          = {doc.position} := by simp
      rw [hsingle, hdp, Finset.union_comm, ← Finset.insert_eq]
      show _ = Finset.range ((pageBlocks st page_id org_id).length + 1)
      rw [← Finset.range_succ]

/-- One validated step of a C1 sequence preserves id uniqueness and the
page's position invariant. -/
theorem applyBlockOp_preserves (page_id org_id : Nat) (st : St) (op : BlockOp)
    (hwf : wfIds st) (hpos : posOk st page_id org_id)
    (hok : okBlockOp page_id org_id st op = true) :
    wfIds (applyBlockOp page_id org_id st op) ∧
      posOk (applyBlockOp page_id org_id st op) page_id org_id := by
  cases op with
  | create new_id bd =>
    simp only [okBlockOp, Bool.and_eq_true, beq_iff_eq, List.all_eq_true,
      decide_eq_true_eq] at hok
    obtain ⟨⟨hbd, hcnt⟩, hfresh⟩ := hok
    rcases hres : create_block st page_id org_id new_id bd with e | ⟨doc, st'⟩
    · simp only [applyBlockOp, hres]
      exact ⟨hwf, hpos⟩
    · simp only [applyBlockOp, hres]
      exact create_preserves hres hwf hpos hfresh hbd hcnt
  | move block_id new_position =>
    show wfIds (move_block st block_id new_position org_id).2 ∧
      posOk (move_block st block_id new_position org_id).2 page_id org_id
    rcases hget : get_block st block_id org_id with - | bm
    · have : move_block st block_id new_position org_id = (none, st) := by
        unfold move_block
        rw [hget]
      rw [this]
      exact ⟨hwf, hpos⟩
    · simp only [okBlockOp, hget, Bool.and_eq_true, beq_iff_eq,
        decide_eq_true_eq] at hok
      obtain ⟨⟨hpage, hnp⟩, hcnt⟩ := hok
      subst hpage
      exact ⟨move_preserves_wf hwf hget,
        move_preserves_posOk hwf hget hpos hnp hcnt⟩

/-- C1 (amended): starting from any well-formed state whose page satisfies
the position invariant, any sequence of `create_block` (no explicit
position, fresh id) and in-range `move_block` operations on that page —
with the page staying within the 100-row default listing limit — keeps
the surviving blocks' positions exactly `{0, …, N-1}` (no gaps, no
duplicates).  Every prefix of a valid sequence is itself a valid
sequence, so the invariant holds after each operation.  (`delete_block`
is excluded: the counterexample shows it leaves a gap.) -/
theorem claim_C1_position_invariant (page_id org_id : Nat) :
    ∀ (ops : List BlockOp) (st : St), wfIds st → posOk st page_id org_id →
      okBlockSeq page_id org_id st ops = true →
      posOk (applyBlockOps page_id org_id st ops) page_id org_id := by
  intro ops
  induction ops with
  | nil => intro st _ hpos _; exact hpos
  | cons op rest ih =>
    intro st hwf hpos hok
    simp only [okBlockSeq, Bool.and_eq_true] at hok
    have hstep := applyBlockOp_preserves page_id org_id st op hwf hpos hok.1
    exact ih (applyBlockOp page_id org_id st op) hstep.1 hstep.2 hok.2

/-- Witness for C1: two creates followed by a move on an initially empty
page keep positions `{0, 1}`. -/
theorem claim_C1_witness :
    wfIds emptyPageSt ∧ posOk emptyPageSt 0 0 ∧
    okBlockSeq 0 0 emptyPageSt
      [BlockOp.create 1 { block_type := "text".data, content := { text := some "a".data } },
       BlockOp.create 2 { block_type := "text".data, content := { text := some "b".data } },
       BlockOp.move 1 1] = true ∧
    posOk (applyBlockOps 0 0 emptyPageSt
      [BlockOp.create 1 { block_type := "text".data, content := { text := some "a".data } },
       BlockOp.create 2 { block_type := "text".data, content := { text := some "b".data } },
       BlockOp.move 1 1]) 0 0 :=
  ⟨by decide, by decide, by decide,
    claim_C1_position_invariant 0 0 _ _ (by decide) (by decide) (by decide)⟩

/-- Counterexample for C1 as stated: `delete_block` deletes its row
without repositioning the survivors, so deleting the block at position 0
of a three-block page leaves the surviving position set `{1, 2}`, not
`{0, 1}` — a gap at 0. -/
theorem claim_C1_counterexample :
    (delete_block threeBlockSt 1 0).1 = true ∧
    posOk threeBlockSt 0 0 ∧
    ¬ posOk (delete_block threeBlockSt 1 0).2 0 0 :=
  ⟨by decide, by decide, by decide⟩

/-! ## Tag usage bookkeeping (claim C10) -/

theorem setUsage_usageOk {st : St} {tag_id org_id : Nat} {c : Int}
    (hu : usageOk st) (hc : 0 ≤ c) : usageOk (setUsage st tag_id org_id c) := by
  intro t ht
  unfold setUsage at ht
  simp only [List.mem_map] at ht
  obtain ⟨t0, ht0, rfl⟩ := ht
  split
  · exact hc
  · exact hu t0 ht0

theorem findTag_spec {st : St} {tag_id org_id : Nat} {etag : Tag}
    (h : findTag st tag_id org_id = some etag) :
    etag ∈ st.tags ∧ etag.tag_id = tag_id := by
  unfold findTag at h
  have hmem := List.mem_of_find?_eq_some h
  have hp := List.find?_some h
  refine ⟨?_, by simpa using hp⟩
  unfold get_tags at hmem
  have h2 := mem_sortByKeyDesc.1 hmem
  exact List.mem_of_mem_filter (List.take_subset _ _ h2)

theorem assign_usageOk {st : St} (block_id tag_id org_id : Nat) (hu : usageOk st) :
    usageOk (assign_tag_to_block st block_id tag_id org_id).2 := by
  unfold assign_tag_to_block
  rcases hfind : findTag st tag_id org_id with - | etag
  · exact hu
  · rcases hblock : tagOpBlock st block_id org_id with - | block
    · exact hu
    · by_cases hmem : tag_id ∈ block.tags
      · simp only [if_pos hmem]
        exact hu
      · simp only [if_neg hmem]
        have h0 : 0 ≤ etag.usage_count := hu etag (findTag_spec hfind).1
        exact setUsage_usageOk (fun t ht => hu t ht) (by omega)

theorem remove_usageOk {st : St} (block_id tag_id org_id : Nat) (hu : usageOk st) :
    usageOk (remove_tag_from_block st block_id tag_id org_id).2 := by
  unfold remove_tag_from_block
  rcases hfind : findTag st tag_id org_id with - | etag
  · exact hu
  · rcases hblock : tagOpBlock st block_id org_id with - | block
    · exact hu
    · by_cases hmem : tag_id ∈ block.tags
      · simp only [hmem, not_true, if_neg (not_not_intro hmem)]
        exact setUsage_usageOk (fun t ht => hu t ht) (le_max_left 0 _)
      · simp only [if_pos hmem]
        exact hu

/-- C10: tag usage counts never go negative along any sequence of
assign/remove operations, and removing a tag that is not assigned to the
block is a no-op returning `False` — no error, no change to the block's
tag list or the tag's usage count (the whole store is untouched). -/
theorem claim_C10_tag_usage (org_id : Nat) :
    (∀ (ops : List TagOp) (st : St), usageOk st →
      usageOk (applyTagOps org_id st ops)) ∧
    (∀ (st : St) (block_id tag_id : Nat) (etag : Tag) (block : Block),
      findTag st tag_id org_id = some etag →
      tagOpBlock st block_id org_id = some block →
      tag_id ∉ block.tags →
      remove_tag_from_block st block_id tag_id org_id = (.ok false, st)) := by
  constructor
  · intro ops
    induction ops with
    | nil => intro st hu; exact hu
    | cons op rest ih =>
      intro st hu
      refine ih (applyTagOp org_id st op) ?_
      cases op with
      | assign block_id tag_id => exact assign_usageOk block_id tag_id org_id hu
      | remove block_id tag_id => exact remove_usageOk block_id tag_id org_id hu
  · intro st block_id tag_id etag block hfind hblock hmem
    unfold remove_tag_from_block
    rw [hfind, hblock]
    simp only [if_pos hmem]

/-! ## Circular-reference walk lemmas (claims C3, C4) -/

theorem foldl_circStep_none (source : Nat)
    (rec : Nat → List Nat → Option (Bool × List Nat)) :
    ∀ links : List Link, links.foldl (circStep source rec) none = none
  | [] => rfl
  | _ :: rest => foldl_circStep_none source rec rest

theorem foldl_circStep_true (source : Nat)
    (rec : Nat → List Nat → Option (Bool × List Nat)) (v : List Nat) :
    ∀ links : List Link,
      links.foldl (circStep source rec) (some (true, v)) = some (true, v)
  | [] => rfl
  | _ :: rest => foldl_circStep_true source rec v rest

/-- The visited set only grows along the link loop. -/
theorem foldl_circStep_sub {source : Nat}
    {rec : Nat → List Nat → Option (Bool × List Nat)}
    (hrec : ∀ t v b v', rec t v = some (b, v') → v ⊆ v') :
    ∀ (links : List Link) (b0 : Bool) (v0 : List Nat) (b : Bool) (v' : List Nat),
      links.foldl (circStep source rec) (some (b0, v0)) = some (b, v') → v0 ⊆ v'
  | [], b0, v0, b, v', h => by
    rw [List.foldl_nil] at h
    simp only [Option.some.injEq, Prod.mk.injEq] at h
    exact h.2 ▸ List.Subset.refl v0
  | l :: rest, b0, v0, b, v', h => by
    rw [List.foldl_cons] at h
    cases b0 with
    | true =>
      rw [show circStep source rec (some (true, v0)) l = some (true, v0) from rfl] at h
      exact foldl_circStep_sub hrec rest true v0 b v' h
    | false =>
      rcases htb : l.target_block_id with - | linked
      · rw [show circStep source rec (some (false, v0)) l = some (false, v0) from by
          simp [circStep, htb]] at h
        exact foldl_circStep_sub hrec rest false v0 b v' h
      · by_cases hsrcq : linked = source
        · rw [show circStep source rec (some (false, v0)) l = some (true, v0) from by
            simp [circStep, htb, hsrcq]] at h
          exact foldl_circStep_sub hrec rest true v0 b v' h
        · rw [show circStep source rec (some (false, v0)) l = rec linked v0 from by
            simp [circStep, htb, hsrcq]] at h
          rcases hr : rec linked v0 with - | ⟨b1, v1⟩
          · rw [hr, foldl_circStep_none] at h
            exact Option.noConfusion h
          · rw [hr] at h
            exact fun x hx =>
              foldl_circStep_sub hrec rest b1 v1 b v' h (hrec linked v0 b1 v1 hr hx)

/-- The visited set only grows along the whole walk. -/
theorem aux_sub (st : St) (source org_id : Nat) :
    ∀ (fuel t : Nat) (visited : List Nat) (b : Bool) (v' : List Nat),
      hasCircularAux st source org_id fuel t visited = some (b, v') →
      visited ⊆ v' := by
  intro fuel
  induction fuel with
  | zero =>
    intro t visited b v' h
    exact absurd h (by simp [hasCircularAux])
  | succ n ih =>
    intro t visited b v' h
    unfold hasCircularAux at h
    by_cases hmem : t ∈ visited
    · rw [if_pos hmem] at h
      simp only [Option.some.injEq, Prod.mk.injEq] at h
      exact h.2 ▸ List.Subset.refl visited
    · rw [if_neg hmem] at h
      have hsub := foldl_circStep_sub (fun t v b v' hr => ih t v b v' hr)
        (linksFrom st t org_id) false (t :: visited) b v' h
      exact fun x hx => hsub (List.mem_cons_of_mem t hx)

/-- With at most 1000 link rows, the per-node query of the walk returns
every outgoing link of the node. -/
theorem mem_linksFrom {st : St} {org_id node : Nat}
    (hlink : st.links.length ≤ 1000) {l : Link} (hl : l ∈ st.links)
    (hsrc : l.source_block_id = node) (horg : l.organization_id = org_id) :
    l ∈ linksFrom st node org_id := by
  unfold linksFrom
  rw [List.take_of_length_le (le_trans (List.length_filter_le _ _) hlink)]
  exact List.mem_filter.2 ⟨hl, by simp [hsrc, horg]⟩

/-- The closure property of a `false` answer: every node the walk newly
visited has had all its outgoing block edges explored, and none of them
hits the source. -/
theorem aux_false_spec (st : St) (source org_id : Nat)
    (hlink : st.links.length ≤ 1000) :
    ∀ (fuel t : Nat) (visited v' : List Nat),
      hasCircularAux st source org_id fuel t visited = some (false, v') →
      t ∈ v' ∧ visited ⊆ v' ∧
        ∀ x ∈ v', x ∈ visited ∨
          ∀ y, IsEdge st org_id x y → y ≠ source ∧ y ∈ v' := by
  intro fuel
  induction fuel with
  | zero =>
    intro t visited v' h
    exact absurd h (by simp [hasCircularAux])
  | succ n ih =>
    intro t visited v' h
    unfold hasCircularAux at h
    by_cases hmem : t ∈ visited
    · rw [if_pos hmem] at h
      simp only [Option.some.injEq, Prod.mk.injEq, true_and] at h
      subst h
      exact ⟨hmem, List.Subset.refl _, fun x hx => Or.inl hx⟩
    · rw [if_neg hmem] at h
      have key : ∀ (links : List Link) (v0 : List Nat),
          links.foldl (circStep source (hasCircularAux st source org_id n))
              (some (false, v0)) = some (false, v') →
          v0 ⊆ v' ∧
          (∀ l ∈ links, ∀ y, l.target_block_id = some y → y ≠ source ∧ y ∈ v') ∧
          (∀ x ∈ v', x ∈ v0 ∨
            ∀ y, IsEdge st org_id x y → y ≠ source ∧ y ∈ v') := by
        intro links
        induction links with
        | nil =>
          intro v0 h0
          rw [List.foldl_nil] at h0
          simp only [Option.some.injEq, Prod.mk.injEq, true_and] at h0
          subst h0
          exact ⟨List.Subset.refl _, by simp, fun x hx => Or.inl hx⟩
        | cons l rest ihl =>
          intro v0 h0
          rw [List.foldl_cons] at h0
          rcases htb : l.target_block_id with - | linked
          · rw [show circStep source (hasCircularAux st source org_id n)
                (some (false, v0)) l = some (false, v0) from by
                simp [circStep, htb]] at h0
            obtain ⟨hsub, hb, hc⟩ := ihl v0 h0
            refine ⟨hsub, ?_, hc⟩
            intro l' hl' y hy
            rcases List.mem_cons.1 hl' with rfl | hl''
            · rw [htb] at hy
              exact Option.noConfusion hy
            · exact hb l' hl'' y hy
          · by_cases hsrcq : linked = source
            · rw [show circStep source (hasCircularAux st source org_id n)
                  (some (false, v0)) l = some (true, v0) from by
                  simp [circStep, htb, hsrcq]] at h0
              rw [foldl_circStep_true] at h0
              simp at h0
            · rw [show circStep source (hasCircularAux st source org_id n)
                  (some (false, v0)) l
                  = hasCircularAux st source org_id n linked v0 from by
                  simp [circStep, htb, hsrcq]] at h0
              rcases hr : hasCircularAux st source org_id n linked v0 with - | ⟨b1, v1⟩
              · rw [hr, foldl_circStep_none] at h0
                exact Option.noConfusion h0
              · rw [hr] at h0
                cases b1 with
                | true =>
                  rw [foldl_circStep_true] at h0
                  simp at h0
                | false =>
                  obtain ⟨hlin, hv0v1, hcl1⟩ := ih linked v0 v1 hr
                  obtain ⟨hv1v', hbrest, hcrest⟩ := ihl v1 h0
                  refine ⟨fun x hx => hv1v' (hv0v1 hx), ?_, ?_⟩
                  · intro l' hl' y hy
                    rcases List.mem_cons.1 hl' with rfl | hl''
                    · rw [htb] at hy
                      injection hy with hy'
                      subst hy'
                      exact ⟨hsrcq, hv1v' hlin⟩
                    · exact hbrest l' hl'' y hy
                  · intro x hx
                    rcases hcrest x hx with hx1 | hclosed
                    · rcases hcl1 x hx1 with hx0 | hcl
                      · exact Or.inl hx0
                      · exact Or.inr (fun y hy =>
                          ⟨(hcl y hy).1, hv1v' (hcl y hy).2⟩)
                    · exact Or.inr hclosed
      obtain ⟨hsub, hb, hc⟩ := key (linksFrom st t org_id) (t :: visited) h
      refine ⟨hsub (List.mem_cons_self t visited), fun x hx =>
        hsub (List.mem_cons_of_mem t hx), ?_⟩
      intro x hx
      rcases hc x hx with hx0 | hclosed
      · rcases List.mem_cons.1 hx0 with rfl | hxv
        · refine Or.inr ?_
          intro y hy
          obtain ⟨l, hl, horg, hsrc2, htgt2⟩ := hy
          exact hb l (mem_linksFrom hlink hl hsrc2 horg) y htgt2
        · exact Or.inl hxv
      · exact Or.inr hclosed

/-- From a fresh visited set, a `false` answer means no nonempty path
from the target back to the source exists. -/
theorem not_reaches_of_false {st : St} {source org_id : Nat}
    (hlink : st.links.length ≤ 1000) {fuel t : Nat} {v' : List Nat}
    (h : hasCircularAux st source org_id fuel t [] = some (false, v')) :
    ¬ Reaches st org_id t source := by
  obtain ⟨htv, -, hclosed⟩ := aux_false_spec st source org_id hlink fuel t [] v' h
  have hcl : ∀ x ∈ v', ∀ y, IsEdge st org_id x y → y ≠ source ∧ y ∈ v' :=
    fun x hx => (hclosed x hx).resolve_left (List.not_mem_nil x)
  intro hpath
  suffices hgen : ∀ a b, Reaches st org_id a b → a ∈ v' → b = source → False from
    hgen t source hpath htv rfl
  intro a b hr
  induction hr with
  | single hedge =>
    intro ha hb
    subst hb
    exact (hcl _ ha _ hedge).1 rfl
  | step hedge _ ihr =>
    intro ha hb
    exact ihr (hcl _ ha _ hedge).2 hb

/-- The recursion budget never runs out when it exceeds the number of
not-yet-visited candidate nodes (every newly visited node beyond the
initial target is some link row's block target). -/
theorem aux_ne_none (st : St) (source org_id : Nat) (univ : Finset Nat)
    (huniv : ∀ l ∈ st.links, ∀ y, l.target_block_id = some y → y ∈ univ) :
    ∀ (fuel t : Nat) (visited : List Nat),
      t ∈ univ ∨ t ∈ visited →
      (univ \ visited.toFinset).card < fuel →
      hasCircularAux st source org_id fuel t visited ≠ none := by
  intro fuel
  induction fuel with
  | zero =>
    intro t visited _ hcard
    omega
  | succ n ih =>
    intro t visited ht hcard h
    unfold hasCircularAux at h
    by_cases hmem : t ∈ visited
    · rw [if_pos hmem] at h
      exact Option.noConfusion h
    · rw [if_neg hmem] at h
      have htu : t ∈ univ := ht.resolve_right hmem
      have htuv : t ∈ univ \ visited.toFinset :=
        Finset.mem_sdiff.2 ⟨htu, fun hc => hmem (List.mem_toFinset.1 hc)⟩
      have key : ∀ (links : List Link) (b0 : Bool) (v0 : List Nat),
          (∀ l ∈ links, l ∈ st.links) →
          (t :: visited) ⊆ v0 →
          links.foldl (circStep source (hasCircularAux st source org_id n))
            (some (b0, v0)) ≠ none := by
        intro links
        induction links with
        | nil =>
          intro b0 v0 _ _ hnone
          exact Option.noConfusion hnone
        | cons l rest ihl =>
          intro b0 v0 hmemL hsub hnone
          rw [List.foldl_cons] at hnone
          cases b0 with
          | true =>
            rw [show circStep source (hasCircularAux st source org_id n)
                (some (true, v0)) l = some (true, v0) from rfl] at hnone
            exact ihl true v0 (fun l' hl' => hmemL l' (List.mem_cons_of_mem l hl'))
              hsub hnone
          | false =>
            rcases htb : l.target_block_id with - | linked
            · rw [show circStep source (hasCircularAux st source org_id n)
                  (some (false, v0)) l = some (false, v0) from by
                  simp [circStep, htb]] at hnone
              exact ihl false v0 (fun l' hl' => hmemL l' (List.mem_cons_of_mem l hl'))
                hsub hnone
            · by_cases hsrcq : linked = source
              · rw [show circStep source (hasCircularAux st source org_id n)
                    (some (false, v0)) l = some (true, v0) from by
                    simp [circStep, htb, hsrcq]] at hnone
                exact ihl true v0 (fun l' hl' => hmemL l' (List.mem_cons_of_mem l hl'))
                  hsub hnone
              · rw [show circStep source (hasCircularAux st source org_id n)
                    (some (false, v0)) l
                    = hasCircularAux st source org_id n linked v0 from by
                    simp [circStep, htb, hsrcq]] at hnone
                have hlu : linked ∈ univ :=
                  huniv l (hmemL l (List.mem_cons_self l rest)) linked htb
                have hcard2 : (univ \ v0.toFinset).card < n := by
                  have hss : univ \ v0.toFinset ⊆
                      (univ \ visited.toFinset).erase t := by
                    intro x hx
                    rcases Finset.mem_sdiff.1 hx with ⟨hxu, hxv0⟩
                    refine Finset.mem_erase.2 ⟨?_, Finset.mem_sdiff.2 ⟨hxu, ?_⟩⟩
                    · intro he
                      exact hxv0 (List.mem_toFinset.2
                        (he ▸ hsub (List.mem_cons_self t visited)))
                    · intro hc
                      exact hxv0 (List.mem_toFinset.2
                        (hsub (List.mem_cons_of_mem t (List.mem_toFinset.1 hc))))
                  have h1 := Finset.card_le_card hss
                  have h2 := Finset.card_erase_of_mem htuv
                  have h3 : 0 < (univ \ visited.toFinset).card :=
                    Finset.card_pos.2 ⟨t, htuv⟩
                  omega
                rcases hr : hasCircularAux st source org_id n linked v0 with - | ⟨b1, v1⟩
                · exact ih linked v0 (Or.inl hlu) hcard2 hr
                · rw [hr] at hnone
                  have hv0v1 := aux_sub st source org_id n linked v0 b1 v1 hr
                  exact ihl b1 v1 (fun l' hl' => hmemL l' (List.mem_cons_of_mem l hl'))
                    (fun x hx => hv0v1 (hsub hx)) hnone
      refine key (linksFrom st t org_id) false (t :: visited) ?_
        (List.Subset.refl _) h
      intro l hl
      exact List.mem_of_mem_filter (List.take_subset _ _ hl)

/-- Detection completeness of `_has_circular_reference`: when the tenant's
link rows fit the 1000-row query limit and the target reaches the source
along existing block→block links, the check answers `true`. -/
theorem hasCircular_of_reaches {st : St} {source target org_id : Nat}
    (hlink : st.links.length ≤ 1000)
    (hpath : Reaches st org_id target source) :
    _has_circular_reference st source target org_id = true := by
  have huniv : ∀ l ∈ st.links, ∀ y, l.target_block_id = some y →
      y ∈ insert target (st.links.filterMap Link.target_block_id).toFinset := by
    intro l hl y hy
    exact Finset.mem_insert_of_mem (List.mem_toFinset.2
      (List.mem_filterMap.2 ⟨l, hl, hy⟩))
  have hcard : ((insert target (st.links.filterMap Link.target_block_id).toFinset) \
      (([] : List Nat)).toFinset).card < hasCircularFuel st := by
    have h1 := Finset.card_insert_le target
      (st.links.filterMap Link.target_block_id).toFinset
    have h2 := (st.links.filterMap Link.target_block_id).toFinset_card_le
    have h3 := List.length_filterMap_le Link.target_block_id st.links
    have h4 : (([] : List Nat)).toFinset = (∅ : Finset Nat) := rfl
    rw [h4, Finset.sdiff_empty]
    unfold hasCircularFuel
    omega
  have hne := aux_ne_none st source org_id
    (insert target (st.links.filterMap Link.target_block_id).toFinset) huniv
    (hasCircularFuel st) target []
    (Or.inl (Finset.mem_insert_self _ _)) hcard
  rcases hres : hasCircularAux st source org_id (hasCircularFuel st) target []
    with - | ⟨b, v'⟩
  · exact absurd hres hne
  · cases b with
    | true =>
      unfold _has_circular_reference
      rw [hres]
      rfl
    | false => exact absurd hpath (not_reaches_of_false hlink hres)

/-- Witness for C10, scenario E of the spec: assign "urgent" twice and
remove it twice; usage counts stay non-negative throughout, and the
second remove (tag no longer assigned) is the `False` no-op. -/
theorem claim_C10_witness :
    usageOk scenarioESt ∧
    usageOk (applyTagOps 0 scenarioESt
      [TagOp.assign 5 1, TagOp.assign 5 1, TagOp.remove 5 1, TagOp.remove 5 1]) ∧
    remove_tag_from_block scenarioESt 5 1 0 = (.ok false, scenarioESt) :=
  ⟨by decide,
   (claim_C10_tag_usage 0).1
     [TagOp.assign 5 1, TagOp.assign 5 1, TagOp.remove 5 1, TagOp.remove 5 1]
     scenarioESt (by decide),
   (claim_C10_tag_usage 0).2 scenarioESt 5 1
     { tag_id := 1, organization_id := 0, name := "urgent".data, usage_count := 0 }
     (mkBlock 5 0 0 0) (by decide) (by decide) (by decide)⟩

/-- C3 (amended): a `create_link` with a block target whose target already
reaches the source along existing block→block links (a nonempty path)
fails with the circular-reference error naming both endpoint blocks, and
persists nothing — the store is returned unchanged.  (The message
decomposition exhibits both endpoint ids in the message.  The
counterexample shows the self-loop case — a cycle closed only by the new
edge itself — is *not* rejected.) -/
theorem claim_C3_cycle_conflict (st : St) (source_block_id target_id : Nat)
    (link_type : Str) (org_id new_link_id : Nat)
    (hlt : link_type ∈ validLinkTypes)
    (hsrc : (_get_block_by_id st source_block_id org_id).isSome)
    (htgt : (_get_block_by_id st target_id org_id).isSome)
    (hlink : st.links.length ≤ 1000)
    (hpath : Reaches st org_id target_id source_block_id) :
    create_link st source_block_id target_id link_type org_id false new_link_id
      = (.error (circularMsg target_id source_block_id), st) ∧
    ∃ pre mid : Str, circularMsg target_id source_block_id
      = pre ++ (toString target_id).data ++ mid
          ++ (toString source_block_id).data := by
  constructor
  · unfold create_link
    rw [if_neg (not_not_intro hlt)]
    obtain ⟨sb, hsb⟩ := Option.isSome_iff_exists.1 hsrc
    rw [hsb]
    rw [if_neg (by simp : ¬ ((false : Bool) = true))]
    obtain ⟨tb, htb⟩ := Option.isSome_iff_exists.1 htgt
    rw [htb]
    rw [if_pos (hasCircular_of_reaches hlink hpath)]
  · exact ⟨"Circular reference detected: target block ".data,
      " already links to source block ".data, rfl⟩

/-- Witness for C3: with an existing link 2 → 1, creating 1 → 2 closes a
cycle and is rejected with the message naming blocks 2 and 1; the store
is unchanged. -/
theorem claim_C3_witness :
    ("reference".data ∈ validLinkTypes) ∧
    (_get_block_by_id cycleSt 1 0).isSome ∧
    (_get_block_by_id cycleSt 2 0).isSome ∧
    cycleSt.links.length ≤ 1000 ∧
    (create_link cycleSt 1 2 "reference".data 0 false 11
        = (.error (circularMsg 2 1), cycleSt) ∧
      ∃ pre mid : Str, circularMsg 2 1
        = pre ++ (toString 2).data ++ mid ++ (toString 1).data) := by
  refine ⟨by decide, by decide, by decide, by decide, ?_⟩
  exact claim_C3_cycle_conflict cycleSt 1 2 "reference".data 0 11
    (by decide) (by decide) (by decide) (by decide)
    (Reaches.single ⟨cycleLink, List.mem_cons_self _ _, rfl, rfl, rfl⟩)

/-- Counterexample for C3 as stated: a self-link (source = target) closes
a directed cycle via the new edge itself, yet on a block with no existing
outgoing links the call succeeds and the link row is persisted. -/
theorem claim_C3_counterexample :
    (create_link loneBlockSt 1 1 "reference".data 0 false 9).1
      = .ok { link_id := 9, organization_id := 0, source_block_id := 1,
              target_block_id := some 1, target_page_id := none,
              link_type := "reference".data } ∧
    (create_link loneBlockSt 1 1 "reference".data 0 false 9).2.links
      = [{ link_id := 9, organization_id := 0, source_block_id := 1,
           target_block_id := some 1, target_page_id := none,
           link_type := "reference".data }] := by
  constructor
  · decide
  · decide

/-- C4 (amended): the general cycle check only follows *existing* edges,
so a self-referencing `create_link` on a block with no outgoing links is
*not* rejected: the cycle check returns no cycle and the self-link row is
persisted.  (Self-reference is rejected only when the block already
reaches itself through existing links.) -/
theorem claim_C4_self_link (st : St) (block_id : Nat) (link_type : Str)
    (org_id new_link_id : Nat)
    (hlt : link_type ∈ validLinkTypes)
    (hsrc : (_get_block_by_id st block_id org_id).isSome)
    (hnolinks : linksFrom st block_id org_id = []) :
    create_link st block_id block_id link_type org_id false new_link_id
      = (.ok { link_id := new_link_id, organization_id := org_id,
               source_block_id := block_id, target_block_id := some block_id,
               target_page_id := none, link_type := link_type },
         { st with links := st.links ++
            [{ link_id := new_link_id, organization_id := org_id,
               source_block_id := block_id, target_block_id := some block_id,
               target_page_id := none, link_type := link_type }] }) := by
  have hcirc : _has_circular_reference st block_id block_id org_id = false := by
    unfold _has_circular_reference hasCircularFuel
    rw [show st.links.length + 2 = (st.links.length + 1) + 1 from rfl]
    unfold hasCircularAux
    rw [if_neg (List.not_mem_nil block_id), hnolinks]
    rfl
  unfold create_link
  rw [if_neg (not_not_intro hlt)]
  obtain ⟨sb, hsb⟩ := Option.isSome_iff_exists.1 hsrc
  rw [hsb]
  rw [if_neg (by simp : ¬ ((false : Bool) = true))]
  rw [if_neg (by simp [hcirc])]

/-- Witness for C4: block 7 of tenant 3 has no outgoing links; the
self-link 7 → 7 passes the cycle check and is persisted. -/
theorem claim_C4_witness :
    ("embed".data ∈ validLinkTypes) ∧
    (_get_block_by_id loneBlockSt2 7 3).isSome ∧
    linksFrom loneBlockSt2 7 3 = [] ∧
    create_link loneBlockSt2 7 7 "embed".data 3 false 12
      = (.ok { link_id := 12, organization_id := 3, source_block_id := 7,
               target_block_id := some 7, target_page_id := none,
               link_type := "embed".data },
         { loneBlockSt2 with links :=
            [{ link_id := 12, organization_id := 3, source_block_id := 7,
               target_block_id := some 7, target_page_id := none,
               link_type := "embed".data }] }) := by
  refine ⟨by decide, by decide, by decide, ?_⟩
  exact claim_C4_self_link loneBlockSt2 7 "embed".data 3 12
    (by decide) (by decide) (by decide)

/-! ## Hybrid ranking lemmas (claim C5) -/

theorem dedupe_go_prefix (ageDays : Str → Option Int) (query : Str) :
    ∀ (pending : List SearchHit) (acc : List Nat × List RankedHit),
      ∃ t : List RankedHit,
        (pending.foldl (dedupeStep ageDays query) acc).2 = acc.2 ++ t
  | [], acc => ⟨[], by simp⟩
  | r :: rest, acc => by
    rw [List.foldl_cons]
    by_cases hid : r.block.block_id ∈ acc.1
    · rw [show dedupeStep ageDays query acc r = acc from by
        simp [dedupeStep, hid]]
      exact dedupe_go_prefix ageDays query rest acc
    · rw [show dedupeStep ageDays query acc r
          = (r.block.block_id :: acc.1,
             acc.2 ++ [{ block := r.block, score := r.score,
                         match_type := r.match_type,
                         final_score := finalScoreOf ageDays query r }]) from by
        simp [dedupeStep, hid]]
      obtain ⟨t, ht⟩ := dedupe_go_prefix ageDays query rest
        (r.block.block_id :: acc.1,
         acc.2 ++ [{ block := r.block, score := r.score,
                     match_type := r.match_type,
                     final_score := finalScoreOf ageDays query r }])
      refine ⟨{ block := r.block, score := r.score,
                match_type := r.match_type,
                final_score := finalScoreOf ageDays query r } :: t, ?_⟩
      rw [ht]
      simp

/-- Every dedupe survivor is the *first* raw hit carrying its block id,
with `final_score` computed from that hit. -/
theorem dedupe_go_out_mem (ageDays : Str → Option Int) (query : Str) :
    ∀ (pending : List SearchHit) (seen : List Nat) (out : List RankedHit),
      ∀ r' ∈ (pending.foldl (dedupeStep ageDays query) (seen, out)).2,
        r' ∈ out ∨
        ∃ h : SearchHit,
          (pending.filter
            (fun x => x.block.block_id == r'.block.block_id)).head? = some h ∧
          ¬ h.block.block_id ∈ seen ∧
          r'.block = h.block ∧ r'.score = h.score ∧
          r'.match_type = h.match_type ∧
          r'.final_score = finalScoreOf ageDays query h
  | [], seen, out => fun r' hr' => Or.inl hr'
  | r :: rest, seen, out => by
    intro r' hr'
    rw [List.foldl_cons] at hr'
    by_cases hid : r.block.block_id ∈ seen
    · rw [show dedupeStep ageDays query (seen, out) r = (seen, out) from by
        simp [dedupeStep, hid]] at hr'
      rcases dedupe_go_out_mem ageDays query rest seen out r' hr' with hl | hr
      · exact Or.inl hl
      · obtain ⟨h, hh, hns, hb, hs, hm, hf⟩ := hr
        refine Or.inr ⟨h, ?_, hns, hb, hs, hm, hf⟩
        rw [List.filter_cons_of_neg, hh]
        simp only [beq_iff_eq]
        intro he
        apply hns
        have : h.block.block_id = r.block.block_id := by
          have h1 : r'.block.block_id = h.block.block_id := by rw [hb]
          omega
        rw [this]
        exact hid
    · rw [show dedupeStep ageDays query (seen, out) r
          = (r.block.block_id :: seen,
             out ++ [{ block := r.block, score := r.score,
                       match_type := r.match_type,
                       final_score := finalScoreOf ageDays query r }]) from by
        simp [dedupeStep, hid]] at hr'
      rcases dedupe_go_out_mem ageDays query rest _ _ r' hr' with hl | hr
      · rcases List.mem_append.1 hl with h1 | h2
        · exact Or.inl h1
        · have hr'eq : r' = { block := r.block, score := r.score,
                              match_type := r.match_type,
                              final_score := finalScoreOf ageDays query r } := by
            simpa using h2
          refine Or.inr ⟨r, ?_, hid, by rw [hr'eq], by rw [hr'eq],
            by rw [hr'eq], by rw [hr'eq]⟩
          rw [List.filter_cons_of_pos]
          · rfl
          · rw [hr'eq]
            simp
      · obtain ⟨h, hh, hns, hb, hs, hm, hf⟩ := hr
        have hns' : ¬ h.block.block_id ∈ seen :=
          fun hc => hns (List.mem_cons_of_mem _ hc)
        have hne : h.block.block_id ≠ r.block.block_id := by
          intro he
          exact hns (he ▸ List.mem_cons_self _ _)
        refine Or.inr ⟨h, ?_, hns', hb, hs, hm, hf⟩
        rw [List.filter_cons_of_neg, hh]
        simp only [beq_iff_eq]
        intro he
        apply hne
        have h1 : r'.block.block_id = h.block.block_id := by rw [hb]
        omega

/-- Dedupe keeps block ids unique. -/
theorem dedupe_go_nodup (ageDays : Str → Option Int) (query : Str) :
    ∀ (pending : List SearchHit) (seen : List Nat) (out : List RankedHit),
      ((out.map (fun r => r.block.block_id)).Nodup ∧
        ∀ r' ∈ out, r'.block.block_id ∈ seen) →
      (((pending.foldl (dedupeStep ageDays query) (seen, out)).2.map
          (fun r => r.block.block_id)).Nodup ∧
        ∀ r' ∈ (pending.foldl (dedupeStep ageDays query) (seen, out)).2,
          r'.block.block_id ∈ (pending.foldl (dedupeStep ageDays query) (seen, out)).1)
  | [], seen, out => fun hp => hp
  | r :: rest, seen, out => by
    intro ⟨hnd, hsub⟩
    rw [List.foldl_cons]
    by_cases hid : r.block.block_id ∈ seen
    · rw [show dedupeStep ageDays query (seen, out) r = (seen, out) from by
        simp [dedupeStep, hid]]
      exact dedupe_go_nodup ageDays query rest seen out ⟨hnd, hsub⟩
    · rw [show dedupeStep ageDays query (seen, out) r
          = (r.block.block_id :: seen,
             out ++ [{ block := r.block, score := r.score,
                       match_type := r.match_type,
                       final_score := finalScoreOf ageDays query r }]) from by
        simp [dedupeStep, hid]]
      apply dedupe_go_nodup ageDays query rest
      constructor
      · rw [List.map_append, List.nodup_append]
        refine ⟨hnd, by simp, ?_⟩
        intro a ha hb
        simp only [List.map_cons, List.map_nil, List.mem_singleton] at hb
        subst hb
        rcases List.mem_map.1 ha with ⟨r0, hr0, hr0e⟩
        exact hid (hr0e ▸ hsub r0 hr0)
      · intro r' hr'
        rcases List.mem_append.1 hr' with h1 | h2
        · exact List.mem_cons_of_mem _ (hsub r' h1)
        · have : r' = { block := r.block, score := r.score,
                        match_type := r.match_type,
                        final_score := finalScoreOf ageDays query r } := by
            simpa using h2
          rw [this]
          exact List.mem_cons_self _ _

/-- Every raw hit's block id survives dedupe. -/
theorem dedupe_go_covers (ageDays : Str → Option Int) (query : Str) :
    ∀ (pending : List SearchHit) (seen : List Nat) (out : List RankedHit),
      (∀ x ∈ seen, ∃ r' ∈ out, r'.block.block_id = x) →
      ∀ r ∈ pending,
        ∃ r' ∈ (pending.foldl (dedupeStep ageDays query) (seen, out)).2,
          r'.block.block_id = r.block.block_id
  | [], _, _ => fun _ r hr => absurd hr (List.not_mem_nil r)
  | r0 :: rest, seen, out => by
    intro hcov r hr
    rw [List.foldl_cons]
    by_cases hid : r0.block.block_id ∈ seen
    · rw [show dedupeStep ageDays query (seen, out) r0 = (seen, out) from by
        simp [dedupeStep, hid]]
      rcases List.mem_cons.1 hr with rfl | hr'
      · obtain ⟨r', hr'o, he⟩ := hcov r.block.block_id hid
        obtain ⟨t, ht⟩ := dedupe_go_prefix ageDays query rest (seen, out)
        exact ⟨r', by rw [ht]; exact List.mem_append_left t hr'o, he⟩
      · exact dedupe_go_covers ageDays query rest seen out hcov r hr'
    · rw [show dedupeStep ageDays query (seen, out) r0
          = (r0.block.block_id :: seen,
             out ++ [{ block := r0.block, score := r0.score,
                       match_type := r0.match_type,
                       final_score := finalScoreOf ageDays query r0 }]) from by
        simp [dedupeStep, hid]]
      have hcov' : ∀ x ∈ r0.block.block_id :: seen,
          ∃ r' ∈ out ++ [{ block := r0.block, score := r0.score,
                           match_type := r0.match_type,
                           final_score := finalScoreOf ageDays query r0 }],
            r'.block.block_id = x := by
        intro x hx
        rcases List.mem_cons.1 hx with rfl | hx'
        · exact ⟨_, List.mem_append_right _ (List.mem_singleton.2 rfl), rfl⟩
        · obtain ⟨r', hr'o, he⟩ := hcov x hx'
          exact ⟨r', List.mem_append_left _ hr'o, he⟩
      rcases List.mem_cons.1 hr with rfl | hr'
      · obtain ⟨t, ht⟩ := dedupe_go_prefix ageDays query rest
          (r.block.block_id :: seen,
           out ++ [{ block := r.block, score := r.score,
                     match_type := r.match_type,
                     final_score := finalScoreOf ageDays query r }])
        refine ⟨{ block := r.block, score := r.score,
                  match_type := r.match_type,
                  final_score := finalScoreOf ageDays query r }, ?_, rfl⟩
        rw [ht]
        exact List.mem_append_left t (List.mem_append_right _ (List.mem_singleton.2 rfl))
      · exact dedupe_go_covers ageDays query rest _ _ hcov' r hr'

/-- C5: hybrid ranking.  `_rank_and_dedupe` deduplicates by block id with
the first occurrence winning (each survivor carries the block, base score
and match type of the first raw hit with its id, and its `final_score` is
computed from that hit); surviving block ids are pairwise distinct; every
raw hit's block id survives; each survivor's composite score equals
`min(1.0, base + exact-term boost (0.10 iff the lower-cased query occurs
in the searchable text) + freshness boost (<7d -> 0.05, <30d -> 0.03,
<90d -> 0.01, else 0) + heading type boost 0.03)`; the output is a
permutation of the deduped list sorted with composite scores monotonically
non-increasing, ties keeping their prior relative order (stable sort); and
truncation to any limit is a length-min prefix that stays sorted. -/
theorem claim_C5_hybrid_ranking (ageDays : Str → Option Int) (query : Str)
    (results : List SearchHit) :
    (∀ r' ∈ _rank_and_dedupe ageDays results query,
        ∃ h : SearchHit,
          (results.filter
            (fun x => x.block.block_id == r'.block.block_id)).head? = some h ∧
          r'.block = h.block ∧ r'.score = h.score ∧
          r'.match_type = h.match_type ∧
          r'.final_score =
            min 1 (h.score +
              (if (findSubIdx (lowerStr query)
                    (lowerStr (_extract_searchable_text h.block.block_type
                      h.block.content))).isSome then (1 : ℚ)/10 else 0) +
              _calculate_freshness_boost (ageDays h.block.created_at) +
              (if h.block.block_type = "heading".data then (3 : ℚ)/100 else 0))) ∧
    ((_rank_and_dedupe ageDays results query).map
        (fun r => r.block.block_id)).Nodup ∧
    (∀ r ∈ results, ∃ r' ∈ _rank_and_dedupe ageDays results query,
        r'.block.block_id = r.block.block_id) ∧
    List.Perm (_rank_and_dedupe ageDays results query)
      (dedupeScored ageDays query results) ∧
    (_rank_and_dedupe ageDays results query).Pairwise
      (fun a b => b.final_score ≤ a.final_score) ∧
    (∀ c : ℚ,
        (_rank_and_dedupe ageDays results query).filter
            (fun x => decide (x.final_score = c)) =
          (dedupeScored ageDays query results).filter
            (fun x => decide (x.final_score = c))) ∧
    (∀ limit : Nat,
        ((_rank_and_dedupe ageDays results query).take limit).length =
          min limit (_rank_and_dedupe ageDays results query).length ∧
        ((_rank_and_dedupe ageDays results query).take limit).Pairwise
          (fun a b => b.final_score ≤ a.final_score)) := by
  refine ⟨?_, ?_, ?_, sortByKeyDesc_perm _ _, sortByKeyDesc_pairwise _ _,
    fun c => sortByKeyDesc_filter_key _ c _,
    fun limit => ⟨List.length_take _ _,
      List.Pairwise.sublist (List.take_sublist _ _)
        (sortByKeyDesc_pairwise _ _)⟩⟩
  · intro r' hr'
    have hmem : r' ∈ dedupeScored ageDays query results :=
      mem_sortByKeyDesc.1 hr'
    rcases dedupe_go_out_mem ageDays query results [] [] r' hmem with hl | hr
    · exact absurd hl (List.not_mem_nil r')
    · obtain ⟨h, hh, _, hb, hs, hm, hf⟩ := hr
      refine ⟨h, hh, hb, hs, hm, ?_⟩
      rw [hf]
      rfl
  · have hD := (dedupe_go_nodup ageDays query results [] []
      ⟨List.nodup_nil, fun r' hr' => absurd hr' (List.not_mem_nil r')⟩).1
    exact (((sortByKeyDesc_perm RankedHit.final_score _).map
      (fun r => r.block.block_id)).nodup_iff).2 hD
  · intro r hr
    obtain ⟨r', hr'm, he⟩ := dedupe_go_covers ageDays query results [] []
      (fun x hx => absurd hx (List.not_mem_nil x)) r hr
    exact ⟨r', mem_sortByKeyDesc.2 hr'm, he⟩

/-- C6 (amended): metadata-mode search.  Every returned hit's block has
the lower-cased query occurring as a substring of the block's lower-cased
searchable text AS THE CODE EXTRACTS IT (`_extract_searchable_text`:
space-joined list items; a link's text with its URL appended — not the
§4.3 converter table the claim names), its score is
`max(0.5, 1 - firstMatchIndex / max(textLength, 1))` for the first match
position in that text, the results are sorted by score descending, and at
most `limit` hits are returned. -/
theorem claim_C6_metadata_search (st : St) (query : Str) (org_id : Nat)
    (filters : Filters) (limit : Nat) :
    (∀ r ∈ _search_metadata st query org_id filters limit,
        ∃ pos : Nat,
          findSubIdx (lowerStr query)
            (lowerStr (_extract_searchable_text r.block.block_type
              r.block.content)) = some pos ∧
          r.score = max ((1 : ℚ)/2)
            (1 - (pos : ℚ) /
              (max (lowerStr (_extract_searchable_text r.block.block_type
                r.block.content)).length 1 : ℚ)) ∧
          r.match_type = "metadata".data) ∧
    (_search_metadata st query org_id filters limit).Pairwise
      (fun a b => b.score ≤ a.score) ∧
    (_search_metadata st query org_id filters limit).length ≤ limit := by
  refine ⟨?_,
    List.Pairwise.sublist (List.take_sublist _ _) (sortByKeyDesc_pairwise _ _),
    List.length_take_le _ _⟩
  intro r hr
  have h2 : r ∈ (metaRows st org_id filters).filterMap (metaScore query) :=
    mem_sortByKeyDesc.1 (List.mem_of_mem_take hr)
  obtain ⟨b, _, he⟩ := List.mem_filterMap.1 h2
  simp only [metaScore] at he
  cases hfind : findSubIdx (lowerStr query)
      (lowerStr (_extract_searchable_text b.block_type b.content)) with
  | none =>
    rw [hfind] at he
    exact absurd he (by simp)
  | some pos =>
    rw [hfind] at he
    cases Option.some.inj he
    exact ⟨pos, hfind, rfl, rfl⟩

/-- Counterexample for C6 as stated: a searchable-text table matching the
§4.3 converter (link text with the URL dropped) would give the link block
{text "a", url "b"} the searchable text "a", which does not contain the
query "b" — yet `_search_metadata` returns that block for query "b",
because the code's extraction appends the URL ("a b"). -/
theorem claim_C6_counterexample :
    ((_search_metadata linkBlockSt "b".data 0 {} 10).map
        (fun r => r.block.block_id) = [7]) ∧
    (findSubIdx (lowerStr "b".data)
      (lowerStr (specSearchableText "link".data
        { text := some "a".data, url := some "b".data }))).isSome = false := by
  exact ⟨by decide, by decide⟩

/-! ## Degraded search lemmas (claim C8) -/

theorem filter_by_date_range_nil (s e : Option Str) :
    _filter_by_date_range [] s e = [] := by
  unfold _filter_by_date_range
  rcases s with _ | s <;> rcases e with _ | e <;> simp

theorem apply_filters_nil (filters : Filters) :
    _apply_additional_filters [] filters = [] := by
  unfold _apply_additional_filters
  rcases filters with ⟨bt, pid, tg, dr⟩
  rcases bt with _ | allowed <;> rcases tg with _ | required <;>
    rcases dr with _ | ⟨s, e⟩ <;>
      simp [filter_by_date_range_nil]

/-- C8 (amended): vector failures degrade asymmetrically.  When the query
embeds successfully and the similarity search fails (non-200) or finds no
vectors, both hybrid and semantic search return an empty result list
(degraded-but-available; this covers scenario C, zero stored vectors).
But when EMBEDDING the query fails, both hybrid and semantic search
propagate an error rather than returning an empty result set, contrary to
the claim's "in any of its operations, including embedding the query". -/
theorem claim_C8_degraded_search (env : VectorEnv) (st : St)
    (ageDays : Str → Option Int) (query : Str) (org_id : Nat)
    (filters : Filters) (limit : Nat) (threshold : ℚ) :
    ((∃ emb, _generate_query_embedding env query = .ok emb) →
      (env.searchResponse (hybridMetaFilter org_id filters) threshold
          (limit * 2) = none ∨
       env.searchResponse (hybridMetaFilter org_id filters) threshold
          (limit * 2) = some []) →
      _search_hybrid env st ageDays query org_id filters limit threshold =
        .ok []) ∧
    ((∃ emb, _generate_query_embedding env query = .ok emb) →
      (env.searchResponse { organization_id := org_id } threshold limit
          = none ∨
       env.searchResponse { organization_id := org_id } threshold limit
          = some []) →
      _search_semantic env st query org_id limit threshold = .ok []) ∧
    (env.embedResponse query = none →
      _search_hybrid env st ageDays query org_id filters limit threshold =
        .error "Failed to generate query embedding".data ∧
      _search_semantic env st query org_id limit threshold =
        .error "Failed to generate query embedding".data) := by
  refine ⟨?_, ?_, ?_⟩
  · intro ⟨emb, hemb⟩ hsr
    have hv : _search_vectors env (hybridMetaFilter org_id filters) threshold
        (limit * 2) = [] := by
      rcases hsr with h | h <;> simp [_search_vectors, h]
    have h1 : _search_hybrid env st ageDays query org_id filters limit
        threshold = .ok ((_rank_and_dedupe ageDays
          (_apply_additional_filters
            (_enrich_search_results st
              (_search_vectors env (hybridMetaFilter org_id filters)
                threshold (limit * 2)) org_id)
            filters) query).take limit) := by
      unfold _search_hybrid
      rw [hemb]
    rw [h1, hv, show _enrich_search_results st [] org_id = [] from rfl,
      apply_filters_nil, show _rank_and_dedupe ageDays [] query = [] from rfl,
      List.take_nil]
  · intro ⟨emb, hemb⟩ hsr
    have hv : _search_vectors env { organization_id := org_id } threshold
        limit = [] := by
      rcases hsr with h | h <;> simp [_search_vectors, h]
    have h1 : _search_semantic env st query org_id limit threshold =
        .ok (_enrich_search_results st
          (_search_vectors env { organization_id := org_id } threshold limit)
          org_id) := by
      unfold _search_semantic
      rw [hemb]
    rw [h1, hv]
    rfl
  · intro h
    have hg : _generate_query_embedding env query =
        .error "Failed to generate query embedding".data := by
      unfold _generate_query_embedding
      rw [h]
    constructor
    · unfold _search_hybrid
      rw [hg]
    · unfold _search_semantic
      rw [hg]

/-- Witness for C8: scenario C concretely — embedding succeeds, the
similarity search of a tenant with zero stored vectors returns no hits,
and hybrid search for "ocean" with threshold 0.9 yields `ok []`. -/
theorem claim_C8_witness :
    (∃ emb, _generate_query_embedding emptyVecEnv "ocean".data = .ok emb) ∧
    (emptyVecEnv.searchResponse (hybridMetaFilter 0 {}) ((9 : ℚ)/10)
        (20 * 2) = none ∨
     emptyVecEnv.searchResponse (hybridMetaFilter 0 {}) ((9 : ℚ)/10)
        (20 * 2) = some []) ∧
    _search_hybrid emptyVecEnv emptyPageSt (fun _ => none) "ocean".data 0
      {} 20 ((9 : ℚ)/10) = .ok [] :=
  ⟨⟨[1], rfl⟩, Or.inr rfl,
    (claim_C8_degraded_search emptyVecEnv emptyPageSt (fun _ => none)
        "ocean".data 0 {} 20 ((9 : ℚ)/10)).1
      ⟨[1], rfl⟩ (Or.inr rfl)⟩

/-- Counterexample for C8 as stated: with the embeddings endpoint down,
hybrid and semantic search both surface the embedding error instead of
returning an empty result set. -/
theorem claim_C8_counterexample :
    _search_hybrid downVecEnv emptyPageSt (fun _ => none) "ocean".data 0
        {} 20 ((7 : ℚ)/10) =
      .error "Failed to generate query embedding".data ∧
    _search_semantic downVecEnv emptyPageSt "ocean".data 0 20
        ((7 : ℚ)/10) =
      .error "Failed to generate query embedding".data :=
  ⟨rfl, rfl⟩

/-- Counterexample for C4 as stated: the claim promises rejection of a
self-reference "regardless of what outgoing links the source block
already has"; block 4 has an outgoing link to block 5 (with no path
back), and the self-link 4 → 4 is still accepted and persisted. -/
theorem claim_C4_counterexample :
    (create_link outLinkSt 4 4 "mention".data 0 false 21).1
      = .ok { link_id := 21, organization_id := 0, source_block_id := 4,
              target_block_id := some 4, target_page_id := none,
              link_type := "mention".data } ∧
    ((create_link outLinkSt 4 4 "mention".data 0 false 21).2.links.map
      Link.link_id) = [20, 21] := by
  constructor
  · decide
  · decide


end Ocean
